import Mathlib

/-! # gzip-hpp: the bounded inflate driver of `include/gzip/decompress.hpp`

A shallow embedding of `gzip::Decompressor::decompress` and of the free function
`gzip::decompress`.

* `std::size_t` is a natural number reduced modulo `2^64`, `unsigned int` one reduced
  modulo `2^32`; every product, sum, difference and narrowing cast of the source carries
  its reduction explicitly.
* zlib is an external library.  It is a parameter of the embedding: an `Engine` gives the
  return value of `inflateInit2` and, for every call of `inflate`, the return value, the
  bytes stored through `next_out`, the number of bytes read through `next_in` and the
  value left in the `msg` field (`none` for a null pointer).
* `std::runtime_error` is the outcome `threw what`.  Two operations of the source have
  no defined behaviour in C++: building a `std::string` from a null `msg`, and a store
  through `next_out` past the end of the output string; both are the outcome `undefined`.
* The `do ... while` loop need not terminate, so it is run with a bound on the number of
  iterations; when the bound is reached the outcome is `unfinished` and the state reached
  so far is reported.
* Every zlib call and every `output.resize` is recorded in a trace.
-/

namespace gzip

/-! ## Constants of `zlib.h` and integer widths -/

def Z_OK : Int := 0
def Z_STREAM_END : Int := 1
def Z_NEED_DICT : Int := 2
def Z_DATA_ERROR : Int := -3
def Z_MEM_ERROR : Int := -4
def Z_BUF_ERROR : Int := -5
def Z_FINISH : Int := 4

/-- Number of values of `std::size_t` (64 bits). -/
abbrev SIZE_MOD : Nat := 18446744073709551616

/-- Number of values of `unsigned int` (32 bits). -/
abbrev UINT_MOD : Nat := 4294967296

/-- Value of `std::numeric_limits<unsigned int>::max()`. -/
abbrev UINT_MAX : Nat := 4294967295

/-- Value of `constexpr int window_bits = 15 + 32`. -/
def window_bits : Int := 15 + 32

/-! ## Messages of the `std::runtime_error`s thrown by the source -/

def msg_init_failed : String := "inflate init failed"
def msg_debug_too_large : String := "size arg is too large to fit into unsigned int type x2"
def msg_input_too_large : String := "size may use more memory than intended when decompressing"
def msg_output_too_large : String :=
  "size of output string will use more memory then intended when decompressing"

/-! ## The inflate engine (zlib), as a parameter -/

/-- What one call `inflate(&inflate_s, flush)` does, as far as the driver can observe. -/
structure InflateResult (σ : Type) where
  /-- Return value of the call. -/
  ret : Int
  /-- Bytes the engine stores through `next_out` (clipped to `avail_out` by the driver). -/
  written : List UInt8
  /-- Bytes the engine reads through `next_in` (clipped to `avail_in` by the driver). -/
  consumed : Nat
  /-- Field `msg` after the call; `none` is the null pointer. -/
  msg : Option String
  /-- Internal state after the call. -/
  state : σ

/-- The zlib calls used by the driver.  `inflateInit2 windowBits` gives the return value
and the fresh internal state; `inflate state next_in avail_in avail_out flush` one feed step,
where `next_in` is the input from the read cursor on. -/
structure Engine (σ : Type) where
  inflateInit2 : Int → Int × σ
  inflate : σ → List UInt8 → Nat → Nat → Int → InflateResult σ

/-! ## Observations -/

/-- Engine calls and output resizes, in the order the driver performs them. -/
inductive Event where
  | inflateInit2 (windowBits ret : Int)
  | resize (n : Nat)
  | inflate (avail_in avail_out : Nat) (flush ret : Int) (stored : List UInt8)
  | inflateEnd
  deriving DecidableEq, Repr

/-- How a call ends: `returned v`, a thrown `std::runtime_error` with message `what`,
undefined behaviour, or `unfinished` when the iteration bound was reached first. -/
inductive Outcome (α : Type) where
  | returned (value : α)
  | threw (what : String)
  | undefined
  | unfinished
  deriving DecidableEq, Repr

/-- Outcome of `Decompressor::decompress`, the output string it leaves behind, and the
trace of the call. -/
structure Result where
  outcome : Outcome Nat
  output : List UInt8
  trace : List Event
  deriving DecidableEq, Repr

/-! ## The output string -/

/-- Effect of `std::string::resize(n)`: cut to `n` characters, or pad with zero characters. -/
def resize (s : List UInt8) (n : Nat) : List UInt8 :=
  s.take n ++ List.replicate (n - s.length) 0

/-- Bytes `w` stored at offset `off` of `s` (the caller checks `off + w.length ≤ s.length`). -/
def store (s : List UInt8) (off : Nat) (w : List UInt8) : List UInt8 :=
  s.take off ++ w ++ s.drop (off + w.length)

/-! ## `Decompressor::decompress` -/

/-- The class `Decompressor`: its only member is the ceiling `max_`. -/
structure Decompressor where
  max_ : Nat := 1000000000

/-- Local state of the `do ... while` loop: the output string, `size_uncompressed`, and the
fields `next_in` (as an offset into `data`), `avail_in` and the internal state of
`inflate_s`; together with the trace so far. -/
structure LoopState (σ : Type) where
  output : List UInt8
  size_uncompressed : Nat
  next_in : Nat
  avail_in : Nat
  state : σ
  trace : List Event

/-- Result of one pass through the loop body: the call ended, or the loop repeats. -/
inductive Step (σ : Type) where
  | done (r : Result)
  | again (st : LoopState σ)

/-- One pass through the body of the `do ... while` loop, up to and including the test
`inflate_s.avail_out == 0`. -/
def iteration {σ : Type} (E : Engine σ) (max_ : Nat) (data : List UInt8) (size : Nat)
    (st : LoopState σ) : Step σ :=
  let resize_to := (st.size_uncompressed + (2 * size) % SIZE_MOD) % SIZE_MOD
  if resize_to > max_ then
    .done { outcome := .threw msg_output_too_large, output := st.output,
            trace := st.trace ++ [.inflateEnd] }
  else
    let output := resize st.output resize_to
    let avail_out := ((2 * size) % SIZE_MOD) % UINT_MOD
    let r := E.inflate st.state (data.drop st.next_in) st.avail_in avail_out Z_FINISH
    let stored := r.written.take avail_out
    let consumed := min r.consumed st.avail_in
    let trace := st.trace ++ [.resize resize_to,
      .inflate st.avail_in avail_out Z_FINISH r.ret stored]
    if st.size_uncompressed + stored.length > output.length then
      .done { outcome := .undefined, output := output, trace := trace }
    else
      let output := store output st.size_uncompressed stored
      let avail_out_after := avail_out - stored.length
      if r.ret ≠ Z_STREAM_END ∧ r.ret ≠ Z_OK ∧ r.ret ≠ Z_BUF_ERROR then
        match r.msg with
        | none => .done { outcome := .undefined, output := output, trace := trace }
        | some error_msg =>
          .done { outcome := .threw error_msg, output := output,
                  trace := trace ++ [.inflateEnd] }
      else
        let size_uncompressed :=
          (st.size_uncompressed + ((2 * size) % SIZE_MOD + SIZE_MOD - avail_out_after) % SIZE_MOD)
            % SIZE_MOD
        if avail_out_after = 0 then
          .again { output := output, size_uncompressed := size_uncompressed,
                   next_in := st.next_in + consumed, avail_in := st.avail_in - consumed,
                   state := r.state, trace := trace }
        else
          .done { outcome := .returned size_uncompressed, output := output,
                  trace := trace ++ [.inflateEnd] }

/-- The `do ... while` loop, run for at most `fuel` passes. -/
def inflateLoop {σ : Type} (E : Engine σ) (max_ : Nat) (data : List UInt8) (size : Nat) :
    Nat → LoopState σ → Result
  | 0, st => { outcome := .unfinished, output := st.output, trace := st.trace }
  | fuel + 1, st =>
    match iteration E max_ data size st with
    | .done r => r
    | .again st2 => inflateLoop E max_ data size fuel st2

/-- The member function `Decompressor::decompress(output, data, size)`.  `DEBUG` tells
whether the preprocessor symbol `DEBUG` is defined; `output` is the string passed by
reference as the caller left it; `fuel` bounds the number of loop passes. -/
def Decompressor.decompress {σ : Type} (self : Decompressor) (E : Engine σ) (DEBUG : Bool)
    (output : List UInt8) (data : List UInt8) (size : Nat) (fuel : Nat) : Result :=
  let init := E.inflateInit2 window_bits
  if init.1 ≠ Z_OK then
    { outcome := .threw msg_init_failed, output := output,
      trace := [.inflateInit2 window_bits init.1] }
  else if DEBUG = true ∧ (size * 2) % SIZE_MOD > UINT_MAX then
    { outcome := .threw msg_debug_too_large, output := output,
      trace := [.inflateInit2 window_bits init.1, .inflateEnd] }
  else if size > self.max_ ∨ (size * 2) % SIZE_MOD > self.max_ then
    { outcome := .threw msg_input_too_large, output := output,
      trace := [.inflateInit2 window_bits init.1, .inflateEnd] }
  else
    inflateLoop E self.max_ data size fuel
      { output := output, size_uncompressed := 0, next_in := 0,
        avail_in := size % UINT_MOD, state := init.2,
        trace := [.inflateInit2 window_bits init.1] }

/-! ## The free function `decompress` -/

/-- The free function `decompress(data, size)`: a default `Decompressor`, an empty string,
and a final `output.resize(uncompressed_size)`. -/
def decompress {σ : Type} (E : Engine σ) (DEBUG : Bool) (data : List UInt8) (size : Nat)
    (fuel : Nat) : Outcome (List UInt8) :=
  let decomp : Decompressor := {}
  let r := decomp.decompress E DEBUG [] data size fuel
  match r.outcome with
  | .returned uncompressed_size => .returned (resize r.output uncompressed_size)
  | .threw what => .threw what
  | .undefined => .undefined
  | .unfinished => .unfinished

/-! ## Engines used as concrete inputs -/

/-- An engine that holds the decoded bytes still to be delivered: each feed stores as many
of them as the output region takes and reports `Z_STREAM_END` when none is left over,
`Z_BUF_ERROR` otherwise (zlib, called with `Z_FINISH` on a complete stream). -/
def streamEngine (b : List UInt8) : Engine (List UInt8) where
  inflateInit2 := fun _ => (Z_OK, b)
  inflate := fun rest _ avail_in avail_out _ =>
    { ret := if rest.length ≤ avail_out then Z_STREAM_END else Z_BUF_ERROR,
      written := rest.take avail_out, consumed := avail_in, msg := none,
      state := rest.drop avail_out }

/-- An engine whose initialisation fails with `Z_MEM_ERROR`. -/
def failingInitEngine : Engine Unit where
  inflateInit2 := fun _ => (Z_MEM_ERROR, ())
  inflate := fun _ _ _ _ _ =>
    { ret := Z_DATA_ERROR, written := [], consumed := 0, msg := none, state := () }

/-- An engine on a truncated stream holding `b`: it delivers what it has and, having read
all its input without reaching the end of the stream, reports `Z_BUF_ERROR`. -/
def truncatedEngine (b : List UInt8) : Engine (List UInt8) where
  inflateInit2 := fun _ => (Z_OK, b)
  inflate := fun rest _ avail_in avail_out _ =>
    { ret := Z_BUF_ERROR, written := rest.take avail_out, consumed := avail_in,
      msg := none, state := rest.drop avail_out }

/-- An engine that meets a zlib header asking for a preset dictionary: `inflate` returns
`Z_NEED_DICT`, stores nothing and leaves `msg` null. -/
def needDictEngine : Engine Unit where
  inflateInit2 := fun _ => (Z_OK, ())
  inflate := fun _ _ avail_in _ _ =>
    { ret := Z_NEED_DICT, written := [], consumed := min avail_in 6, msg := none, state := () }

/-- An engine that runs out of memory in its first feed: `inflate` returns `Z_MEM_ERROR`,
stores nothing and leaves `msg` null. -/
def memErrorEngine : Engine Unit where
  inflateInit2 := fun _ => (Z_OK, ())
  inflate := fun _ _ _ _ _ =>
    { ret := Z_MEM_ERROR, written := [], consumed := 0, msg := none, state := () }

/-! ## Names for the local quantities of one loop pass -/

/-- Value of the local `resize_to` in a pass that starts in state `st`. -/
def resize_to {σ : Type} (size : Nat) (st : LoopState σ) : Nat :=
  (st.size_uncompressed + (2 * size) % SIZE_MOD) % SIZE_MOD

/-- Value given to `inflate_s.avail_out` in every pass: `static_cast<unsigned int>(2 * size)`. -/
def avail_out (size : Nat) : Nat := ((2 * size) % SIZE_MOD) % UINT_MOD

/-- The call `inflate(&inflate_s, Z_FINISH)` of a pass that starts in state `st`. -/
def feed {σ : Type} (E : Engine σ) (data : List UInt8) (size : Nat) (st : LoopState σ) :
    InflateResult σ :=
  E.inflate st.state (data.drop st.next_in) st.avail_in (avail_out size) Z_FINISH

/-- Bytes that reach the output region in a pass that starts in state `st`. -/
def stored {σ : Type} (E : Engine σ) (data : List UInt8) (size : Nat) (st : LoopState σ) :
    List UInt8 :=
  (feed E data size st).written.take (avail_out size)

/-- Trace after the feed of a pass that starts in state `st`. -/
def trace_fed {σ : Type} (E : Engine σ) (data : List UInt8) (size : Nat) (st : LoopState σ) :
    List Event :=
  st.trace ++ [.resize (resize_to size st),
    .inflate st.avail_in (avail_out size) Z_FINISH (feed E data size st).ret (stored E data size st)]

/-- Value of `size_uncompressed` after the update of a pass that starts in state `st`. -/
def produced_after {σ : Type} (E : Engine σ) (data : List UInt8) (size : Nat)
    (st : LoopState σ) : Nat :=
  (st.size_uncompressed + ((2 * size) % SIZE_MOD + SIZE_MOD
      - (avail_out size - (stored E data size st).length)) % SIZE_MOD) % SIZE_MOD

/-- The three statuses the driver does not treat as an error. -/
def accepted (ret : Int) : Prop := ret = Z_STREAM_END ∨ ret = Z_OK ∨ ret = Z_BUF_ERROR

instance (ret : Int) : Decidable (accepted ret) := by unfold accepted; infer_instance

/-- All bytes stored by the feeds of a trace, in order. -/
def storedBytes : List Event → List UInt8
  | [] => []
  | .inflate _ _ _ _ s :: t => s ++ storedBytes t
  | _ :: t => storedBytes t

/-- Events of the loop body: a resize or a feed. -/
def Event.isLoopEvent : Event → Bool
  | .resize _ => true
  | .inflate _ _ _ _ _ => true
  | _ => false

/-- The pairs `(avail_in, avail_out)` the feeds of a trace were called with, in order. -/
def feedArgs : List Event → List (Nat × Nat)
  | [] => []
  | .inflate avail_in avail_out _ _ _ :: t => (avail_in, avail_out) :: feedArgs t
  | _ :: t => feedArgs t

/-- Number of calls of `inflate` in a trace. -/
def feedCount (t : List Event) : Nat := (feedArgs t).length

/-! ## Predicates used in the statements -/

/-- The call has ended: it returned or threw a `std::runtime_error`. -/
def Outcome.ended {α : Type} (o : Outcome α) : Prop :=
  (∃ v, o = .returned v) ∨ (∃ what, o = .threw what)

/-- Shape of the trace of a call whose `inflateInit2` succeeded: the init, then resizes and
feeds only, then `inflateEnd` exactly when the call has ended. -/
def Result.disciplined (r : Result) : Prop :=
  ∃ body : List Event, (∀ e ∈ body, e.isLoopEvent = true) ∧
    ((r.outcome.ended ∧ r.trace = .inflateInit2 window_bits Z_OK :: (body ++ [.inflateEnd])) ∨
     (¬ r.outcome.ended ∧ r.trace = .inflateInit2 window_bits Z_OK :: body))

/-- Output string after a loop pass. -/
def Step.output {σ : Type} : Step σ → List UInt8
  | .done r => r.output
  | .again st => st.output

/-- Trace after a loop pass. -/
def Step.trace {σ : Type} : Step σ → List Event
  | .done r => r.trace
  | .again st => st.trace

/-- The engine `E` decodes a stream whose content is `b`: `inflateInit2` succeeds, and in
every state the bytes still to be delivered are `pending`; a feed stores as many of them as
the output region takes, keeps the others pending, and reports one of the accepted
statuses. -/
structure Decodes {σ : Type} (E : Engine σ) (pending : σ → List UInt8) (b : List UInt8) :
    Prop where
  init_ok : (E.inflateInit2 window_bits).1 = Z_OK
  init_pending : pending (E.inflateInit2 window_bits).2 = b
  status : ∀ s next_in avail_in avail_out flush,
    accepted (E.inflate s next_in avail_in avail_out flush).ret
  written : ∀ s next_in avail_in avail_out flush,
    (E.inflate s next_in avail_in avail_out flush).written = (pending s).take avail_out
  rest : ∀ s next_in avail_in avail_out flush,
    pending (E.inflate s next_in avail_in avail_out flush).state = (pending s).drop avail_out

/-! # Lemmas -/

/-! ## Basic facts about the output string -/

theorem resize_length (s : List UInt8) (n : Nat) : (resize s n).length = n := by
  unfold resize
  simp only [List.length_append, List.length_take, List.length_replicate]
  omega

theorem store_length (s : List UInt8) (off : Nat) (w : List UInt8)
    (h : off + w.length ≤ s.length) : (store s off w).length = s.length := by
  unfold store
  simp only [List.length_append, List.length_take, List.length_drop]
  omega

theorem take_resize (s : List UInt8) (n k : Nat) (hk : k ≤ s.length) (hn : k ≤ n) :
    (resize s n).take k = s.take k := by
  unfold resize
  rw [List.take_append_of_le_length (by simp only [List.length_take]; omega)]
  rw [List.take_take]
  congr 1
  omega

theorem take_store (s : List UInt8) (off : Nat) (w : List UInt8) (h : off ≤ s.length) :
    (store s off w).take (off + w.length) = s.take off ++ w := by
  unfold store
  have hl : (s.take off ++ w).length = off + w.length := by
    simp only [List.length_append, List.length_take]; omega
  rw [← hl, List.take_left]

theorem resize_of_le (s : List UInt8) (n : Nat) (h : n ≤ s.length) :
    resize s n = s.take n := by
  unfold resize
  rw [Nat.sub_eq_zero_of_le h]
  simp only [List.replicate_zero, List.append_nil]

theorem take_length_take (l : List UInt8) (n : Nat) :
    l.take (l.take n).length = l.take n := by
  rw [List.length_take]
  by_cases h : n ≤ l.length
  · rw [Nat.min_eq_left h]
  · have hlt : l.length ≤ n := Nat.le_of_lt (Nat.lt_of_not_le h)
    rw [Nat.min_eq_right hlt, List.take_of_length_le (Nat.le_refl _),
      List.take_of_length_le hlt]

/-! ## The loop pass, case by case -/

theorem iteration_eq {σ : Type} (E : Engine σ) (max_ : Nat) (data : List UInt8)
    (size : Nat) (st : LoopState σ) :
    iteration E max_ data size st =
      if resize_to size st > max_ then
        .done (Result.mk (.threw msg_output_too_large) st.output (st.trace ++ [.inflateEnd]))
      else if st.size_uncompressed + (stored E data size st).length
          > (resize st.output (resize_to size st)).length then
        .done (Result.mk .undefined (resize st.output (resize_to size st))
          (trace_fed E data size st))
      else if (feed E data size st).ret ≠ Z_STREAM_END ∧ (feed E data size st).ret ≠ Z_OK
          ∧ (feed E data size st).ret ≠ Z_BUF_ERROR then
        match (feed E data size st).msg with
        | none => .done (Result.mk .undefined
            (store (resize st.output (resize_to size st)) st.size_uncompressed
              (stored E data size st))
            (trace_fed E data size st))
        | some error_msg => .done (Result.mk (.threw error_msg)
            (store (resize st.output (resize_to size st)) st.size_uncompressed
              (stored E data size st))
            (trace_fed E data size st ++ [.inflateEnd]))
      else if avail_out size - (stored E data size st).length = 0 then
        .again (LoopState.mk
          (store (resize st.output (resize_to size st)) st.size_uncompressed
            (stored E data size st))
          (produced_after E data size st)
          (st.next_in + min (feed E data size st).consumed st.avail_in)
          (st.avail_in - min (feed E data size st).consumed st.avail_in)
          (feed E data size st).state
          (trace_fed E data size st))
      else
        .done (Result.mk (.returned (produced_after E data size st))
          (store (resize st.output (resize_to size st)) st.size_uncompressed
            (stored E data size st))
          (trace_fed E data size st ++ [.inflateEnd])) := rfl

theorem iteration_cases {σ : Type} (E : Engine σ) (max_ : Nat) (data : List UInt8)
    (size : Nat) (st : LoopState σ) :
    (resize_to size st > max_ ∧
      iteration E max_ data size st = .done (Result.mk (.threw msg_output_too_large)
        st.output (st.trace ++ [.inflateEnd]))) ∨
    (resize_to size st ≤ max_ ∧
      st.size_uncompressed + (stored E data size st).length > resize_to size st ∧
      iteration E max_ data size st = .done (Result.mk .undefined
        (resize st.output (resize_to size st)) (trace_fed E data size st))) ∨
    (resize_to size st ≤ max_ ∧
      st.size_uncompressed + (stored E data size st).length ≤ resize_to size st ∧
      ¬ accepted (feed E data size st).ret ∧ (feed E data size st).msg = none ∧
      iteration E max_ data size st = .done (Result.mk .undefined
        (store (resize st.output (resize_to size st)) st.size_uncompressed
          (stored E data size st))
        (trace_fed E data size st))) ∨
    (resize_to size st ≤ max_ ∧
      st.size_uncompressed + (stored E data size st).length ≤ resize_to size st ∧
      ¬ accepted (feed E data size st).ret ∧
      ∃ m, (feed E data size st).msg = some m ∧
      iteration E max_ data size st = .done (Result.mk (.threw m)
        (store (resize st.output (resize_to size st)) st.size_uncompressed
          (stored E data size st))
        (trace_fed E data size st ++ [.inflateEnd]))) ∨
    (resize_to size st ≤ max_ ∧
      st.size_uncompressed + (stored E data size st).length ≤ resize_to size st ∧
      accepted (feed E data size st).ret ∧
      avail_out size - (stored E data size st).length = 0 ∧
      iteration E max_ data size st = .again (LoopState.mk
        (store (resize st.output (resize_to size st)) st.size_uncompressed
          (stored E data size st))
        (produced_after E data size st)
        (st.next_in + min (feed E data size st).consumed st.avail_in)
        (st.avail_in - min (feed E data size st).consumed st.avail_in)
        (feed E data size st).state
        (trace_fed E data size st))) ∨
    (resize_to size st ≤ max_ ∧
      st.size_uncompressed + (stored E data size st).length ≤ resize_to size st ∧
      accepted (feed E data size st).ret ∧
      avail_out size - (stored E data size st).length ≠ 0 ∧
      iteration E max_ data size st = .done (Result.mk (.returned (produced_after E data size st))
        (store (resize st.output (resize_to size st)) st.size_uncompressed
          (stored E data size st))
        (trace_fed E data size st ++ [.inflateEnd]))) := by
  rw [iteration_eq, resize_length]
  by_cases h1 : resize_to size st > max_
  · left
    exact ⟨h1, by rw [if_pos h1]⟩
  · right
    rw [if_neg h1]
    have h1le : resize_to size st ≤ max_ := Nat.le_of_not_gt h1
    by_cases h2 : st.size_uncompressed + (stored E data size st).length > resize_to size st
    · left
      exact ⟨h1le, h2, by rw [if_pos h2]⟩
    · right
      rw [if_neg h2]
      have h2le := Nat.le_of_not_gt h2
      by_cases h3 : accepted (feed E data size st).ret
      · right; right
        have h3b : ¬ ((feed E data size st).ret ≠ Z_STREAM_END ∧
            (feed E data size st).ret ≠ Z_OK ∧ (feed E data size st).ret ≠ Z_BUF_ERROR) := by
          unfold accepted at h3
          tauto
        rw [if_neg h3b]
        by_cases h4 : avail_out size - (stored E data size st).length = 0
        · left
          exact ⟨h1le, h2le, h3, h4, by rw [if_pos h4]⟩
        · right
          exact ⟨h1le, h2le, h3, h4, by rw [if_neg h4]⟩
      · have h3b : ((feed E data size st).ret ≠ Z_STREAM_END ∧
            (feed E data size st).ret ≠ Z_OK ∧ (feed E data size st).ret ≠ Z_BUF_ERROR) := by
          unfold accepted at h3
          tauto
        rw [if_pos h3b]
        cases hm : (feed E data size st).msg with
        | none =>
          left
          exact ⟨h1le, h2le, h3, rfl, rfl⟩
        | some m =>
          right; left
          exact ⟨h1le, h2le, h3, m, rfl, rfl⟩

/-- The member function, with the local `init` written out. -/
theorem decompress_eq {σ : Type} (E : Engine σ) (M size : Nat) (DEBUG : Bool)
    (output data : List UInt8) (fuel : Nat) :
    (Decompressor.mk M).decompress E DEBUG output data size fuel =
      if (E.inflateInit2 window_bits).1 ≠ Z_OK then
        Result.mk (.threw msg_init_failed) output
          [.inflateInit2 window_bits (E.inflateInit2 window_bits).1]
      else if DEBUG = true ∧ (size * 2) % SIZE_MOD > UINT_MAX then
        Result.mk (.threw msg_debug_too_large) output
          [.inflateInit2 window_bits (E.inflateInit2 window_bits).1, .inflateEnd]
      else if size > M ∨ (size * 2) % SIZE_MOD > M then
        Result.mk (.threw msg_input_too_large) output
          [.inflateInit2 window_bits (E.inflateInit2 window_bits).1, .inflateEnd]
      else
        inflateLoop E M data size fuel
          (LoopState.mk output 0 0 (size % UINT_MOD) (E.inflateInit2 window_bits).2
            [.inflateInit2 window_bits (E.inflateInit2 window_bits).1]) := rfl

theorem inflateLoop_succ {σ : Type} (E : Engine σ) (max_ : Nat) (data : List UInt8)
    (size : Nat) (fuel : Nat) (st : LoopState σ) :
    inflateLoop E max_ data size (fuel + 1) st =
      match iteration E max_ data size st with
      | .done r => r
      | .again st2 => inflateLoop E max_ data size fuel st2 := rfl

/-- The member function is the loop once the three early exits are passed. -/
theorem decompress_eq_loop {σ : Type} (E : Engine σ) (M size : Nat) (DEBUG : Bool)
    (output data : List UInt8) (fuel : Nat)
    (h1 : ¬ ((E.inflateInit2 window_bits).1 ≠ Z_OK))
    (h2 : ¬ (DEBUG = true ∧ (size * 2) % SIZE_MOD > UINT_MAX))
    (h3 : ¬ (size > M ∨ (size * 2) % SIZE_MOD > M)) :
    (Decompressor.mk M).decompress E DEBUG output data size fuel
      = inflateLoop E M data size fuel
          (LoopState.mk output 0 0 (size % UINT_MOD) (E.inflateInit2 window_bits).2
            [.inflateInit2 window_bits (E.inflateInit2 window_bits).1]) := by
  rw [decompress_eq, if_neg h1, if_neg h2, if_neg h3]

/-- Loop invariants: a property kept by every repeating pass holds of whatever the loop
reports, whether it ends or reaches its bound. -/
theorem inflateLoop_induct {σ : Type} (E : Engine σ) (max_ : Nat) (data : List UInt8)
    (size : Nat) (Inv : LoopState σ → Prop) (Post : Result → Prop)
    (hdone : ∀ st r, Inv st → iteration E max_ data size st = .done r → Post r)
    (hagain : ∀ st st2, Inv st → iteration E max_ data size st = .again st2 → Inv st2)
    (hfuel : ∀ st, Inv st → Post (Result.mk .unfinished st.output st.trace)) :
    ∀ fuel st, Inv st → Post (inflateLoop E max_ data size fuel st) := by
  intro fuel
  induction fuel with
  | zero => intro st hst; exact hfuel st hst
  | succ n ih =>
    intro st hst
    rw [inflateLoop_succ]
    cases hit : iteration E max_ data size st with
    | done r => exact hdone st r hst hit
    | again st2 => exact ih st2 (hagain st st2 hst hit)

theorem iteration_refused {σ : Type} (E : Engine σ) (max_ : Nat) (data : List UInt8)
    (size : Nat) (st : LoopState σ) (h : resize_to size st > max_) :
    iteration E max_ data size st = .done (Result.mk (.threw msg_output_too_large)
      st.output (st.trace ++ [.inflateEnd])) := by
  rw [iteration_eq, if_pos h]

theorem iteration_grown {σ : Type} (E : Engine σ) (max_ : Nat) (data : List UInt8)
    (size : Nat) (st : LoopState σ) (h : resize_to size st ≤ max_) :
    (iteration E max_ data size st).output.length = resize_to size st ∧
    ∃ tail : List Event, (∀ n, Event.resize n ∉ tail) ∧
      (iteration E max_ data size st).trace = st.trace ++ .resize (resize_to size st) :: tail := by
  have hfed : ∀ extra : List Event, (∀ n, Event.resize n ∉ extra) →
      ∃ tail : List Event, (∀ n, Event.resize n ∉ tail) ∧
        trace_fed E data size st ++ extra = st.trace ++ .resize (resize_to size st) :: tail := by
    intro extra hextra
    refine ⟨.inflate st.avail_in (avail_out size) Z_FINISH (feed E data size st).ret
      (stored E data size st) :: extra, ?_, ?_⟩
    · intro n hn
      rcases List.mem_cons.mp hn with h1 | h1
      · cases h1
      · exact hextra n h1
    · unfold trace_fed
      simp only [List.append_assoc, List.cons_append, List.nil_append]
  have hnil : ∀ n, Event.resize n ∉ ([] : List Event) := fun n hn => by cases hn
  have hend : ∀ n, Event.resize n ∉ [Event.inflateEnd] := fun n hn => by
    rcases List.mem_singleton.mp hn with h1
    cases h1
  rcases iteration_cases E max_ data size st with
    ⟨h0, _⟩ | ⟨_, _, e⟩ | ⟨_, hb, _, _, e⟩ | ⟨_, hb, _, m, _, e⟩ | ⟨_, hb, _, _, e⟩ | ⟨_, hb, _, _, e⟩
  · exact absurd h0 (Nat.not_lt.mpr h)
  · rw [e]
    refine ⟨resize_length _ _, ?_⟩
    have := hfed [] hnil
    rwa [List.append_nil] at this
  · rw [e]
    refine ⟨?_, ?_⟩
    · show (store _ _ _).length = _
      rw [store_length _ _ _ (by rw [resize_length]; exact hb), resize_length]
    · have := hfed [] hnil
      rwa [List.append_nil] at this
  · rw [e]
    refine ⟨?_, hfed _ hend⟩
    show (store _ _ _).length = _
    rw [store_length _ _ _ (by rw [resize_length]; exact hb), resize_length]
  · rw [e]
    refine ⟨?_, ?_⟩
    · show (store _ _ _).length = _
      rw [store_length _ _ _ (by rw [resize_length]; exact hb), resize_length]
    · have := hfed [] hnil
      rwa [List.append_nil] at this
  · rw [e]
    refine ⟨?_, hfed _ hend⟩
    show (store _ _ _).length = _
    rw [store_length _ _ _ (by rw [resize_length]; exact hb), resize_length]

/-! ## The pass that returns -/

theorem stored_length_le {σ : Type} (E : Engine σ) (data : List UInt8) (size : Nat)
    (st : LoopState σ) : (stored E data size st).length ≤ avail_out size := by
  unfold stored
  exact List.length_take_le _ _

theorem storedBytes_append (a b : List Event) :
    storedBytes (a ++ b) = storedBytes a ++ storedBytes b := by
  induction a with
  | nil => rfl
  | cons e t ih =>
    cases e <;> simp [storedBytes, ih]

theorem storedBytes_trace_fed {σ : Type} (E : Engine σ) (data : List UInt8) (size : Nat)
    (st : LoopState σ) :
    storedBytes (trace_fed E data size st) = storedBytes st.trace ++ stored E data size st := by
  unfold trace_fed
  rw [storedBytes_append]
  simp only [storedBytes, List.append_nil]

/-- Arithmetic of the pass that returns: the string was resized to the count returned plus
the part of the region left unused. -/
theorem returning_pass_length (su size len : Nat) (hsu : su < SIZE_MOD)
    (hlen : len ≤ avail_out size)
    (hin : su + len ≤ (su + (2 * size) % SIZE_MOD) % SIZE_MOD) :
    (su + (2 * size) % SIZE_MOD) % SIZE_MOD
      = (su + ((2 * size) % SIZE_MOD + SIZE_MOD - (avail_out size - len)) % SIZE_MOD) % SIZE_MOD
        + (avail_out size - len) := by
  unfold avail_out SIZE_MOD UINT_MOD at *
  omega

/-- Arithmetic of the update `size_uncompressed += 2 * size - avail_out` when `2 * size`
fits `unsigned int`: the count grows by the number of bytes stored. -/
theorem produced_after_exact (su size len : Nat)
    (hd : (2 * size) % SIZE_MOD ≤ UINT_MAX) (hlen : len ≤ avail_out size)
    (hin : su + len ≤ (su + (2 * size) % SIZE_MOD) % SIZE_MOD) :
    (su + ((2 * size) % SIZE_MOD + SIZE_MOD - (avail_out size - len)) % SIZE_MOD) % SIZE_MOD
      = su + len := by
  unfold avail_out SIZE_MOD UINT_MOD UINT_MAX at *
  omega

/-- Whenever the loop returns, its last two events are a feed and the release; that feed
reported an accepted status and left part of its region unused; the output string is as long
as the count returned plus that unused part. -/
theorem inflateLoop_returned {σ : Type} (E : Engine σ) (max_ : Nat) (data : List UInt8)
    (size : Nat) (fuel : Nat) (st : LoopState σ) (hst : st.size_uncompressed < SIZE_MOD)
    (n : Nat) (hn : (inflateLoop E max_ data size fuel st).outcome = .returned n) :
    ∃ (pre : List Event) (ai ao : Nat) (ret : Int) (sto : List UInt8),
      (inflateLoop E max_ data size fuel st).trace
        = pre ++ [.inflate ai ao Z_FINISH ret sto, .inflateEnd] ∧
      accepted ret ∧ sto.length < ao ∧
      (inflateLoop E max_ data size fuel st).output.length = n + (ao - sto.length) := by
  refine inflateLoop_induct E max_ data size
    (fun st => st.size_uncompressed < SIZE_MOD)
    (fun r => ∀ n, r.outcome = .returned n →
      ∃ (pre : List Event) (ai ao : Nat) (ret : Int) (sto : List UInt8),
        r.trace = pre ++ [.inflate ai ao Z_FINISH ret sto, .inflateEnd] ∧
        accepted ret ∧ sto.length < ao ∧ r.output.length = n + (ao - sto.length))
    ?_ ?_ ?_ fuel st hst n hn
  · intro st r hsu hit n hn
    rcases iteration_cases E max_ data size st with
      ⟨_, h⟩ | ⟨_, _, h⟩ | ⟨_, _, _, _, h⟩ | ⟨_, _, _, m, _, h⟩ | ⟨_, _, _, _, h⟩ | ⟨_, hb, hacc, hk, h⟩
    all_goals rw [h] at hit
    all_goals cases hit
    all_goals cases hn
    have hlen := stored_length_le E data size st
    refine ⟨st.trace ++ [.resize (resize_to size st)], st.avail_in, avail_out size,
      (feed E data size st).ret, stored E data size st, ?_, hacc, by omega, ?_⟩
    · show trace_fed E data size st ++ [Event.inflateEnd] = _
      unfold trace_fed
      simp only [List.append_assoc, List.cons_append, List.nil_append]
    · show (store _ _ _).length = _
      rw [store_length _ _ _ (by rw [resize_length]; exact hb), resize_length]
      exact returning_pass_length st.size_uncompressed size _ hsu hlen hb
  · intro st st2 _ hit
    rcases iteration_cases E max_ data size st with
      ⟨_, h⟩ | ⟨_, _, h⟩ | ⟨_, _, _, _, h⟩ | ⟨_, _, _, m, _, h⟩ | ⟨_, _, _, _, h⟩ | ⟨_, _, _, _, h⟩
    all_goals rw [h] at hit
    all_goals cases hit
    show produced_after E data size st < SIZE_MOD
    unfold produced_after
    exact Nat.mod_lt _ (by decide)
  · intro st _ n hn
    cases hn

/-- A call of the member function that returns has passed the three early exits and its
result is the result of the loop. -/
theorem decompress_returned_loop {σ : Type} (E : Engine σ) (M size : Nat) (DEBUG : Bool)
    (output data : List UInt8) (fuel : Nat) (n : Nat)
    (hn : ((Decompressor.mk M).decompress E DEBUG output data size fuel).outcome = .returned n) :
    (E.inflateInit2 window_bits).1 = Z_OK ∧
    ¬ (DEBUG = true ∧ (size * 2) % SIZE_MOD > UINT_MAX) ∧
    ¬ (size > M ∨ (size * 2) % SIZE_MOD > M) ∧
    (Decompressor.mk M).decompress E DEBUG output data size fuel
      = inflateLoop E M data size fuel
          (LoopState.mk output 0 0 (size % UINT_MOD) (E.inflateInit2 window_bits).2
            [.inflateInit2 window_bits (E.inflateInit2 window_bits).1]) := by
  rw [decompress_eq] at hn ⊢
  by_cases h1 : (E.inflateInit2 window_bits).1 ≠ Z_OK
  · rw [if_pos h1] at hn
    exact absurd hn (by simp)
  · rw [if_neg h1] at hn ⊢
    by_cases h2 : DEBUG = true ∧ (size * 2) % SIZE_MOD > UINT_MAX
    · rw [if_pos h2] at hn
      exact absurd hn (by simp)
    · rw [if_neg h2] at hn ⊢
      by_cases h3 : size > M ∨ (size * 2) % SIZE_MOD > M
      · rw [if_pos h3] at hn
        exact absurd hn (by simp)
      · rw [if_neg h3]
        exact ⟨not_not.mp h1, h2, h3, rfl⟩

/-- The free function returns exactly when the member function, with the default ceiling
and an empty string, returns; its string is the output string resized to the count. -/
theorem decompress_returned_iff {σ : Type} (E : Engine σ) (DEBUG : Bool)
    (data : List UInt8) (size fuel : Nat) (s : List UInt8) :
    decompress E DEBUG data size fuel = .returned s ↔
      ∃ n, ((Decompressor.mk 1000000000).decompress E DEBUG [] data size fuel).outcome
          = .returned n ∧
        s = resize ((Decompressor.mk 1000000000).decompress E DEBUG [] data size fuel).output n := by
  have hdef : decompress E DEBUG data size fuel =
      match ((Decompressor.mk 1000000000).decompress E DEBUG [] data size fuel).outcome with
      | .returned uncompressed_size => .returned
          (resize ((Decompressor.mk 1000000000).decompress E DEBUG [] data size fuel).output
            uncompressed_size)
      | .threw what => .threw what
      | .undefined => .undefined
      | .unfinished => .unfinished := rfl
  rw [hdef]
  cases hout : ((Decompressor.mk 1000000000).decompress E DEBUG [] data size fuel).outcome with
  | returned n =>
    constructor
    · intro h
      injection h with h
      exact ⟨n, rfl, h.symm⟩
    · rintro ⟨k, hk, hs⟩
      injection hk with hk
      rw [hs, hk]
  | threw w =>
    constructor
    · intro h; cases h
    · rintro ⟨k, hk, _⟩; cases hk
  | undefined =>
    constructor
    · intro h; cases h
    · rintro ⟨k, hk, _⟩; cases hk
  | unfinished =>
    constructor
    · intro h; cases h
    · rintro ⟨k, hk, _⟩; cases hk

/-! ## Engines that deliver a given byte sequence -/

theorem streamEngine_decodes (b : List UInt8) : Decodes (streamEngine b) id b where
  init_ok := rfl
  init_pending := rfl
  status := by
    intro s next_in avail_in avail_out flush
    show accepted (if s.length ≤ avail_out then Z_STREAM_END else Z_BUF_ERROR)
    unfold accepted
    split_ifs
    · exact Or.inl rfl
    · exact Or.inr (Or.inr rfl)
  written := fun _ _ _ _ _ => rfl
  rest := fun _ _ _ _ _ => rfl

theorem stored_of_decodes {σ : Type} {E : Engine σ} {pending : σ → List UInt8}
    {b : List UInt8} (hE : Decodes E pending b) (data : List UInt8) (size : Nat)
    (st : LoopState σ) :
    stored E data size st = (pending st.state).take (avail_out size) := by
  unfold stored feed
  rw [hE.written, List.take_take, Nat.min_self]

/-! ## A region of zero bytes -/

/-- When `2 * size` is `0` in `std::size_t` (`size = 0`, or `size = 2^63`), every pass asks
for the capacity it already has, offers the engine a region of zero bytes and finds
`avail_out == 0` afterwards: as long as the engine reports accepted statuses the loop
repeats, whatever the bound on the passes. -/
theorem inflateLoop_zero_region {σ : Type} (E : Engine σ) (M : Nat) (data : List UInt8)
    (size : Nat) (hz : (2 * size) % SIZE_MOD = 0)
    (hacc : ∀ s next_in avail_in flush, accepted (E.inflate s next_in avail_in 0 flush).ret)
    (fuel : Nat) (st : LoopState σ) (hst : st.size_uncompressed = 0) :
    (inflateLoop E M data size fuel st).outcome = .unfinished := by
  have hao : avail_out size = 0 := by
    unfold avail_out
    rw [hz]
    rfl
  refine inflateLoop_induct E M data size
    (fun st => st.size_uncompressed = 0) (fun r => r.outcome = .unfinished)
    ?_ ?_ ?_ fuel st hst
  · intro st r hsu hit
    have hsto : stored E data size st = [] := by
      unfold stored
      rw [hao, List.take_zero]
    have hrt : resize_to size st = 0 := by
      unfold resize_to
      rw [hsu, hz]
      rfl
    have haccst : accepted (feed E data size st).ret := by
      unfold feed
      rw [hao]
      exact hacc _ _ _ _
    rcases iteration_cases E M data size st with
      ⟨h0, _⟩ | ⟨_, h0, _⟩ | ⟨_, _, h0, _⟩ | ⟨_, _, h0, _⟩ | ⟨_, _, _, _, h⟩ | ⟨_, _, _, h0, _⟩
    · rw [hrt] at h0
      exact absurd h0 (Nat.not_lt_zero _)
    · rw [hrt, hsu, hsto] at h0
      exact absurd h0 (by decide)
    · exact absurd haccst h0
    · exact absurd haccst h0
    · rw [h] at hit
      cases hit
    · rw [hao, hsto] at h0
      exact absurd rfl h0
  · intro st st2 hsu hit
    have hsto : stored E data size st = [] := by
      unfold stored
      rw [hao, List.take_zero]
    rcases iteration_cases E M data size st with
      ⟨_, h⟩ | ⟨_, _, h⟩ | ⟨_, _, _, _, h⟩ | ⟨_, _, _, m, _, h⟩ | ⟨_, _, _, _, h⟩ | ⟨_, _, _, _, h⟩
    all_goals rw [h] at hit
    all_goals cases hit
    show produced_after E data size st = 0
    unfold produced_after
    rw [hsu, hz, hao, hsto]
    rfl
  · intro st _
    rfl

/-! ## Counting the feeds -/

theorem feedArgs_append (a b : List Event) : feedArgs (a ++ b) = feedArgs a ++ feedArgs b := by
  induction a with
  | nil => rfl
  | cons e t ih =>
    cases e <;> simp [feedArgs, ih]

theorem feedArgs_trace_fed {σ : Type} (E : Engine σ) (data : List UInt8) (size : Nat)
    (st : LoopState σ) :
    feedArgs (trace_fed E data size st) = feedArgs st.trace ++ [(st.avail_in, avail_out size)] := by
  unfold trace_fed
  rw [feedArgs_append]
  rfl

theorem feedArgs_released (t : List Event) : feedArgs (t ++ [.inflateEnd]) = feedArgs t := by
  rw [feedArgs_append]
  simp [feedArgs]

theorem feedCount_trace_fed {σ : Type} (E : Engine σ) (data : List UInt8) (size : Nat)
    (st : LoopState σ) : feedCount (trace_fed E data size st) = feedCount st.trace + 1 := by
  unfold feedCount
  rw [feedArgs_trace_fed, List.length_append]
  rfl

theorem feedCount_released (t : List Event) : feedCount (t ++ [.inflateEnd]) = feedCount t := by
  unfold feedCount
  rw [feedArgs_released]

/-! ## Runs of an engine that delivers a given byte sequence -/

theorem next_capacity_le (su N d : Nat) (hmod : su % d = 0) (hle : su ≤ N) :
    su + d ≤ (N / d + 1) * d := by
  have h1 : su / d * d = su := Nat.div_mul_cancel (Nat.dvd_of_mod_eq_zero hmod)
  have h2 : su / d ≤ N / d := Nat.div_le_div_right hle
  have h3 : su / d * d ≤ N / d * d := Nat.mul_le_mul_right d h2
  rw [Nat.add_mul, Nat.one_mul]
  omega

theorem last_region_start (su N d : Nat) (hd : 0 < d) (hmod : su % d = 0) (h1 : su ≤ N)
    (h2 : N < su + d) : N / d * d = su := by
  have hdvd : d ∣ su := Nat.dvd_of_mod_eq_zero hmod
  have hq : d * (su / d) = su := Nat.mul_div_cancel' hdvd
  have hlt : N - su < d := by omega
  have hdiv : N / d = su / d := by
    have h := Nat.mul_add_div hd (su / d) (N - su)
    rw [hq, Nat.div_eq_of_lt hlt, Nat.add_zero, show su + (N - su) = N by omega] at h
    exact h
  rw [hdiv, Nat.div_mul_cancel hdvd]

theorem room_of_refused (su N d M : Nat) (hmod : su % d = 0) (h1 : su + d ≤ M)
    (h2 : M < (N / d + 1) * d) : su + d ≤ N := by
  have hdvd : d ∣ su := Nat.dvd_of_mod_eq_zero hmod
  have hq : su / d * d = su := Nat.div_mul_cancel hdvd
  have h3 : (su / d + 1) * d < (N / d + 1) * d := by
    rw [Nat.add_mul, Nat.one_mul, hq]
    omega
  have h4 : su / d + 1 < N / d + 1 := Nat.lt_of_mul_lt_mul_right h3
  have h5 : (su / d + 1) * d ≤ N / d * d := Nat.mul_le_mul_right d (by omega)
  have h6 : N / d * d ≤ N := Nat.div_mul_le_self N d
  rw [Nat.add_mul, Nat.one_mul, hq] at h5
  omega

/-- One pass with an engine that delivers `b`, when the growth step is within the ceiling and
no cast loses anything: the pass repeats when at least `2 * size` bytes are still to come,
and returns `|b|` otherwise, having stored all that was left. -/
theorem decodes_pass {σ : Type} {E : Engine σ} {pending : σ → List UInt8}
    {b : List UInt8} (hE : Decodes E pending b) (M size : Nat) (data : List UInt8)
    (hd : 2 * size ≤ UINT_MAX) (hM : M < SIZE_MOD) (st : LoopState σ)
    (hpend : pending st.state = b.drop st.size_uncompressed)
    (hsub : st.size_uncompressed ≤ b.length)
    (hcap : st.size_uncompressed + 2 * size ≤ M) :
    trace_fed E data size st = st.trace ++ [.resize (st.size_uncompressed + 2 * size),
      .inflate st.avail_in (2 * size) Z_FINISH (feed E data size st).ret
        ((b.drop st.size_uncompressed).take (2 * size))] ∧
    ((st.size_uncompressed + 2 * size ≤ b.length ∧
      ∃ st2, iteration E M data size st = .again st2 ∧
        st2.size_uncompressed = st.size_uncompressed + 2 * size ∧
        pending st2.state = b.drop (st.size_uncompressed + 2 * size) ∧
        st2.trace = trace_fed E data size st) ∨
    (b.length < st.size_uncompressed + 2 * size ∧
      (b.drop st.size_uncompressed).take (2 * size) = b.drop st.size_uncompressed ∧
      ∃ r, iteration E M data size st = .done r ∧ r.outcome = .returned b.length ∧
        r.trace = trace_fed E data size st ++ [.inflateEnd])) := by
  have hdm : (2 * size) % SIZE_MOD = 2 * size := by
    unfold SIZE_MOD UINT_MAX at *
    omega
  have hdm2 : (2 * size) % SIZE_MOD ≤ UINT_MAX := by rw [hdm]; exact hd
  have hao : avail_out size = 2 * size := by
    unfold avail_out SIZE_MOD UINT_MOD UINT_MAX at *
    omega
  have hrt : resize_to size st = st.size_uncompressed + 2 * size := by
    unfold resize_to SIZE_MOD at *
    omega
  have hsto : stored E data size st = (b.drop st.size_uncompressed).take (2 * size) := by
    rw [stored_of_decodes hE, hpend, hao]
  have hlen : (stored E data size st).length
      = min (2 * size) (b.length - st.size_uncompressed) := by
    rw [hsto, List.length_take, List.length_drop]
  have hstl := stored_length_le E data size st
  have hin : st.size_uncompressed + (stored E data size st).length ≤ resize_to size st := by
    rw [hrt]; omega
  have hin2 : st.size_uncompressed + (stored E data size st).length
      ≤ (st.size_uncompressed + (2 * size) % SIZE_MOD) % SIZE_MOD := hin
  have hpa : produced_after E data size st
      = st.size_uncompressed + (stored E data size st).length :=
    produced_after_exact st.size_uncompressed size _ hdm2 hstl hin2
  constructor
  · unfold trace_fed
    rw [hrt, hao, hsto]
  · rcases iteration_cases E M data size st with
      ⟨h0, _⟩ | ⟨_, h0, _⟩ | ⟨_, _, h0, _⟩ | ⟨_, _, h0, _⟩ | ⟨_, _, _, h0, h⟩ | ⟨_, _, _, h0, h⟩
    · exfalso
      rw [hrt] at h0
      omega
    · exfalso
      omega
    · exact absurd (hE.status _ _ _ _ _) h0
    · exact absurd (hE.status _ _ _ _ _) h0
    · left
      have hfull : (stored E data size st).length = 2 * size := by omega
      have hroom : st.size_uncompressed + 2 * size ≤ b.length := by
        rw [hfull] at hlen
        omega
      refine ⟨hroom, _, h, ?_, ?_, rfl⟩
      · show produced_after E data size st = st.size_uncompressed + 2 * size
        rw [hpa, hfull]
      · show pending (feed E data size st).state = b.drop (st.size_uncompressed + 2 * size)
        unfold feed
        rw [hE.rest, hpend, hao, List.drop_drop]
    · right
      have hshort : b.length < st.size_uncompressed + 2 * size := by omega
      have hall : st.size_uncompressed + (stored E data size st).length = b.length := by
        omega
      refine ⟨hshort, ?_, _, h, ?_, rfl⟩
      · apply List.take_of_length_le
        rw [List.length_drop]
        omega
      · show Outcome.returned (produced_after E data size st) = Outcome.returned b.length
        rw [hpa, hall]

theorem inflateLoop_decodes_trace {σ : Type} {E : Engine σ} {pending : σ → List UInt8}
    {b : List UInt8} (hE : Decodes E pending b) (M size : Nat) (data : List UInt8)
    (hpos : 0 < size) (hd : 2 * size ≤ UINT_MAX) (hM : M < SIZE_MOD)
    (hfit : (b.length / (2 * size) + 1) * (2 * size) ≤ M) :
    ∀ (fuel : Nat) (st : LoopState σ),
      pending st.state = b.drop st.size_uncompressed →
      st.size_uncompressed ≤ b.length →
      st.size_uncompressed % (2 * size) = 0 →
      (b.length - st.size_uncompressed) / (2 * size) < fuel →
      (inflateLoop E M data size fuel st).outcome = .returned b.length ∧
      feedCount (inflateLoop E M data size fuel st).trace
        = feedCount st.trace + (b.length - st.size_uncompressed) / (2 * size) + 1 ∧
      ∃ (pre : List Event) (ai : Nat) (ret : Int),
        (inflateLoop E M data size fuel st).trace
          = pre ++ [.resize (b.length / (2 * size) * (2 * size) + 2 * size),
              .inflate ai (2 * size) Z_FINISH ret
                (b.drop (b.length / (2 * size) * (2 * size))),
              .inflateEnd] := by
  have h2 : 0 < 2 * size := by omega
  intro fuel
  induction fuel with
  | zero => intro st _ _ _ hf; exact absurd hf (Nat.not_lt_zero _)
  | succ k ih =>
    intro st hpend hsub hmod hf
    have hcap0 := next_capacity_le st.size_uncompressed b.length (2 * size) hmod hsub
    have hcap : st.size_uncompressed + 2 * size ≤ M := le_trans hcap0 hfit
    obtain ⟨htr, hcase⟩ := decodes_pass hE M size data hd hM st hpend hsub hcap
    rw [inflateLoop_succ]
    rcases hcase with ⟨hroom, st2, hit, hsu2, hpend2, htr2⟩ | ⟨hshort, htake, r, hit, hout, hrtr⟩
    · rw [hit]
      have hf2 : (b.length - st2.size_uncompressed) / (2 * size) < k := by
        rw [hsu2]
        rw [Nat.div_lt_iff_lt_mul h2] at hf ⊢
        rw [Nat.add_mul, Nat.one_mul] at hf
        omega
      obtain ⟨r1, r2, r3⟩ := ih st2 (by rw [hpend2, hsu2]) (by rw [hsu2]; exact hroom)
        (by rw [hsu2, Nat.add_mod_right]; exact hmod) hf2
      refine ⟨r1, ?_, r3⟩
      show feedCount (inflateLoop E M data size k st2).trace = _
      rw [r2, htr2, feedCount_trace_fed, hsu2]
      have hsplit : (b.length - st.size_uncompressed) / (2 * size)
          = (b.length - (st.size_uncompressed + 2 * size)) / (2 * size) + 1 := by
        rw [← Nat.add_div_right _ h2]
        congr 1
        omega
      omega
    · rw [hit]
      have hstart := last_region_start st.size_uncompressed b.length (2 * size) h2 hmod hsub
        hshort
      refine ⟨hout, ?_, ?_⟩
      · show feedCount r.trace = _
        rw [hrtr, feedCount_released, feedCount_trace_fed,
          Nat.div_eq_of_lt (by omega : b.length - st.size_uncompressed < 2 * size)]
      · refine ⟨st.trace, st.avail_in, (feed E data size st).ret, ?_⟩
        show r.trace = _
        rw [hrtr, htr, htake, hstart]
        simp only [List.append_assoc, List.cons_append, List.nil_append]

theorem inflateLoop_decodes_refused {σ : Type} {E : Engine σ} {pending : σ → List UInt8}
    {b : List UInt8} (hE : Decodes E pending b) (M size : Nat) (data : List UInt8)
    (hpos : 0 < size) (hM : M ≤ UINT_MAX) (h2s : 2 * size ≤ M)
    (hover : M < (b.length / (2 * size) + 1) * (2 * size)) :
    ∀ (fuel : Nat) (st : LoopState σ),
      pending st.state = b.drop st.size_uncompressed →
      st.size_uncompressed ≤ b.length →
      st.size_uncompressed % (2 * size) = 0 →
      st.size_uncompressed ≤ M →
      (∀ n, (inflateLoop E M data size fuel st).outcome ≠ .returned n) ∧
      ((M - st.size_uncompressed) / (2 * size) < fuel →
        (inflateLoop E M data size fuel st).outcome = .threw msg_output_too_large) := by
  have h2 : 0 < 2 * size := by omega
  have hd : 2 * size ≤ UINT_MAX := le_trans h2s hM
  have hMs : M < SIZE_MOD := by
    unfold SIZE_MOD UINT_MAX at *
    omega
  intro fuel
  induction fuel with
  | zero =>
    intro st _ _ _ _
    exact ⟨fun n hn => (by cases hn), fun hf => absurd hf (Nat.not_lt_zero _)⟩
  | succ k ih =>
    intro st hpend hsub hmod hle
    have hrt : resize_to size st = st.size_uncompressed + 2 * size := by
      unfold resize_to SIZE_MOD UINT_MAX at *
      omega
    rw [inflateLoop_succ]
    by_cases hc : resize_to size st > M
    · rw [iteration_refused E M data size st hc]
      exact ⟨fun n hn => (by cases hn), fun _ => rfl⟩
    · have hcap : st.size_uncompressed + 2 * size ≤ M := by
        rw [← hrt]
        exact Nat.le_of_not_gt hc
      have hroom0 := room_of_refused st.size_uncompressed b.length (2 * size) M hmod hcap hover
      obtain ⟨_, hcase⟩ := decodes_pass hE M size data hd hMs st hpend hsub hcap
      rcases hcase with ⟨hroom, st2, hit, hsu2, hpend2, _⟩ | ⟨hshort, _⟩
      · rw [hit]
        obtain ⟨r1, r2⟩ := ih st2 (by rw [hpend2, hsu2]) (by rw [hsu2]; exact hroom)
          (by rw [hsu2, Nat.add_mod_right]; exact hmod) (by rw [hsu2]; exact hcap)
        refine ⟨r1, fun hf => r2 ?_⟩
        rw [hsu2]
        rw [Nat.div_lt_iff_lt_mul h2] at hf ⊢
        rw [Nat.add_mul, Nat.one_mul] at hf
        omega
      · exfalso
        omega

/-! # The claims -/

/-! ## C1: the ceiling on the input length -/

/-- C1 (as stated, refuted): three concrete calls whose input length violates the ceiling
and which do not end in the input too-large error.  (a) `size = 1 > M = 0` with an engine
whose `inflateInit2` fails: the call throws "inflate init failed".  (b) `size = 2^63`,
`M = 2^64 - 1`: the double `2^64` exceeds `M`, but `size * 2` is `0` in `std::size_t`, the
check passes and the loop runs.  (c) a build with `DEBUG`, `size = 2^31 > M = 5`: the call
throws the message of the `DEBUG` block. -/
theorem input_ceiling_counterexample :
    ((1 > 0 ∨ 2 * 1 > 0) ∧
      (Decompressor.mk 0).decompress failingInitEngine false [] [0] 1 1
        = Result.mk (.threw msg_init_failed) [] [.inflateInit2 window_bits Z_MEM_ERROR]
      ∧ msg_init_failed ≠ msg_input_too_large) ∧
    ((9223372036854775808 > 18446744073709551615 ∨ 2 * 9223372036854775808 > 18446744073709551615) ∧
      (Decompressor.mk 18446744073709551615).decompress (truncatedEngine []) false [] []
          9223372036854775808 1
        = Result.mk .unfinished []
            [.inflateInit2 window_bits Z_OK, .resize 0, .inflate 0 0 Z_FINISH Z_BUF_ERROR []]) ∧
    ((2147483648 > 5 ∨ 2 * 2147483648 > 5) ∧
      (Decompressor.mk 5).decompress (truncatedEngine []) true [] [] 2147483648 1
        = Result.mk (.threw msg_debug_too_large) [] [.inflateInit2 window_bits Z_OK, .inflateEnd]
      ∧ msg_debug_too_large ≠ msg_input_too_large) := by
  refine ⟨⟨by decide, by decide, by decide⟩, ⟨by decide, by decide⟩, by decide, by decide, by decide⟩

/-- C1 (amended): when `inflateInit2` succeeded and `size > M`, or `size * 2` as computed in
`std::size_t` exceeds `M` (and, in a build with `DEBUG`, `size * 2` is at most `UINT_MAX`),
the call throws the input too-large error after `inflateEnd`, leaves the output string as it
was and never enters the loop: the trace holds no resize and no feed, whatever `data` is and
for every bound on the number of passes. -/
theorem input_ceiling_rejected {σ : Type} (E : Engine σ) (M size : Nat) (DEBUG : Bool)
    (output data : List UInt8) (fuel : Nat)
    (hinit : (E.inflateInit2 window_bits).1 = Z_OK)
    (hdebug : DEBUG = false ∨ (size * 2) % SIZE_MOD ≤ UINT_MAX)
    (h : size > M ∨ (size * 2) % SIZE_MOD > M) :
    (Decompressor.mk M).decompress E DEBUG output data size fuel
      = Result.mk (.threw msg_input_too_large) output
          [.inflateInit2 window_bits Z_OK, .inflateEnd] := by
  have h1 : ¬ ((E.inflateInit2 window_bits).1 ≠ Z_OK) := fun hne => hne hinit
  have h2 : ¬ (DEBUG = true ∧ (size * 2) % SIZE_MOD > UINT_MAX) := by
    rintro ⟨hd, hgt⟩
    rcases hdebug with hf | hle
    · rw [hf] at hd; exact Bool.noConfusion hd
    · exact absurd hgt (Nat.not_lt.mpr hle)
  rw [decompress_eq, if_neg h1, if_neg h2, if_pos h, hinit]

theorem input_ceiling_rejected_witness :
    (Decompressor.mk 100).decompress (streamEngine [104, 105]) false [] [1, 2, 3] 51 7
      = Result.mk (.threw msg_input_too_large) []
          [.inflateInit2 window_bits Z_OK, .inflateEnd] :=
  input_ceiling_rejected (streamEngine [104, 105]) 100 51 false [] [1, 2, 3] 7
    (by decide) (Or.inl rfl) (Or.inr (by decide))

/-! ## C2: a stream that decodes to more than the ceiling -/

theorem inflateLoop_bomb {σ : Type} {E : Engine σ} {pending : σ → List UInt8}
    {b : List UInt8} (hE : Decodes E pending b) (M size : Nat) (data : List UInt8)
    (hM : M < b.length) (hpos : 0 < size) (hwrap : M + 2 * size < SIZE_MOD) :
    ∀ (fuel : Nat) (st : LoopState σ), st.size_uncompressed ≤ M →
      b.length ≤ st.size_uncompressed + (pending st.state).length →
      (M - st.size_uncompressed) / (2 * size) < fuel →
      (inflateLoop E M data size fuel st).outcome = .threw msg_output_too_large := by
  intro fuel
  induction fuel with
  | zero => intro st _ _ hf; exact absurd hf (Nat.not_lt_zero _)
  | succ k ih =>
    intro st hsu hpend hf
    have hsto := stored_of_decodes hE data size st
    have hlen : (stored E data size st).length
        = min (avail_out size) (pending st.state).length := by
      rw [hsto, List.length_take]
    have hao : avail_out size ≤ 2 * size := by
      unfold avail_out SIZE_MOD UINT_MOD at *
      omega
    have hrt : resize_to size st = st.size_uncompressed + 2 * size := by
      unfold resize_to SIZE_MOD at *
      omega
    rw [inflateLoop_succ]
    rcases iteration_cases E M data size st with
      ⟨_, h⟩ | ⟨_, h0, _⟩ | ⟨_, _, h0, _⟩ | ⟨_, _, h0, _⟩ | ⟨hle, _, _, h0, h⟩ | ⟨hle, _, _, h0, _⟩
    · rw [h]
    · exfalso
      rw [hrt] at h0
      have := stored_length_le E data size st
      omega
    · exact absurd (hE.status _ _ _ _ _) h0
    · exact absurd (hE.status _ _ _ _ _) h0
    · rw [h]
      rw [hrt] at hle
      have hpa : produced_after E data size st = st.size_uncompressed + 2 * size := by
        unfold produced_after
        rw [h0]
        unfold SIZE_MOD at *
        omega
      refine ih _ ?_ ?_ ?_
      · show produced_after E data size st ≤ M
        rw [hpa]; exact hle
      · show b.length ≤ produced_after E data size st + (pending (feed E data size st).state).length
        rw [hpa]
        unfold feed
        rw [hE.rest, List.length_drop]
        omega
      · show (M - produced_after E data size st) / (2 * size) < k
        rw [hpa]
        have h2 : 0 < 2 * size := by omega
        rw [Nat.div_lt_iff_lt_mul h2] at hf ⊢
        rw [Nat.add_mul, Nat.one_mul] at hf
        omega
    · exfalso
      rw [hrt] at hle
      omega

/-- C2 (as stated, refuted): two calls on a non-empty input accepted by the size check, with
an engine whose stream decodes to more than `M` bytes, that do not end in the too-large
error.  (a) `M = 2^64 - 1`, `size = 2^63`, a stream of `2^64` bytes: `size * 2` is `0` in
`std::size_t`, so every pass asks for capacity `0`, offers a region of `0` bytes and repeats;
whatever the bound on the passes, the call has not ended.  (b) a build with `DEBUG`,
`M = 2^33`, `size = 2^31`, a stream of `10^10` bytes: the call throws the message of the
`DEBUG` block. -/
theorem bomb_counterexample :
    ((0 < 9223372036854775808 ∧
      ¬ (9223372036854775808 > 18446744073709551615 ∨
          (9223372036854775808 * 2) % SIZE_MOD > 18446744073709551615) ∧
      18446744073709551615 < (List.replicate 18446744073709551616 (0 : UInt8)).length) ∧
      ∀ fuel, ((Decompressor.mk 18446744073709551615).decompress
        (streamEngine (List.replicate 18446744073709551616 0)) false [] []
        9223372036854775808 fuel).outcome = .unfinished) ∧
    ((0 < 2147483648 ∧
      ¬ (2147483648 > 8589934592 ∨ (2147483648 * 2) % SIZE_MOD > 8589934592) ∧
      8589934592 < (List.replicate 10000000000 (0 : UInt8)).length) ∧
      ∀ fuel, ((Decompressor.mk 8589934592).decompress
        (streamEngine (List.replicate 10000000000 0)) true [] [] 2147483648 fuel).outcome
          = .threw msg_debug_too_large) ∧
    msg_debug_too_large ≠ msg_output_too_large ∧
    msg_debug_too_large ≠ msg_input_too_large := by
  refine ⟨⟨⟨by decide, by decide, by rw [List.length_replicate]; decide⟩, ?_⟩,
    ⟨⟨by decide, by decide, by rw [List.length_replicate]; decide⟩, ?_⟩, by decide, by decide⟩
  · intro fuel
    rw [decompress_eq, if_neg (by decide), if_neg (by decide), if_neg (by decide)]
    exact inflateLoop_zero_region _ _ [] 9223372036854775808 (by decide)
      (fun s inp ai fl => (streamEngine_decodes _).status s inp ai 0 fl) fuel _ rfl
  · intro fuel
    rw [decompress_eq, if_neg (by decide), if_pos (by decide)]

/-- C2 (amended): for every ceiling `M`, every non-empty input accepted by the size check
with `M + 2 * size < 2^64` (no `std::size_t` sum of the call can wrap) and, in a build with
`DEBUG`, `2 * size ≤ UINT_MAX`, and every engine that decodes a stream of more than `M`
bytes, the member function throws the output too-large error as soon as the bound on the
passes exceeds `M / (2 * size)`; it does not return a result. -/
theorem bomb_rejected {σ : Type} (E : Engine σ) (pending : σ → List UInt8) (b : List UInt8)
    (M size : Nat) (DEBUG : Bool) (output data : List UInt8) (fuel : Nat)
    (hE : Decodes E pending b) (hM : M < b.length) (hpos : 0 < size)
    (hsize : ¬ (size > M ∨ (size * 2) % SIZE_MOD > M))
    (hwrap : M + 2 * size < SIZE_MOD)
    (hdebug : DEBUG = false ∨ 2 * size ≤ UINT_MAX)
    (hfuel : M / (2 * size) < fuel) :
    ((Decompressor.mk M).decompress E DEBUG output data size fuel).outcome
      = .threw msg_output_too_large := by
  have h1 : ¬ ((E.inflateInit2 window_bits).1 ≠ Z_OK) := fun hne => hne hE.init_ok
  have h2 : ¬ (DEBUG = true ∧ (size * 2) % SIZE_MOD > UINT_MAX) := by
    rintro ⟨hd, hgt⟩
    rcases hdebug with hf | hle
    · rw [hf] at hd; exact Bool.noConfusion hd
    · unfold SIZE_MOD UINT_MAX at *
      omega
  rw [decompress_eq, if_neg h1, if_neg h2, if_neg hsize]
  refine inflateLoop_bomb hE M size data hM hpos hwrap fuel _ (Nat.zero_le _) ?_ ?_
  · show b.length ≤ 0 + (pending (E.inflateInit2 window_bits).2).length
    rw [hE.init_pending]
    omega
  · exact hfuel

theorem bomb_rejected_witness :
    ((Decompressor.mk 100).decompress (streamEngine (List.replicate 10000 97)) false [] []
      46 2).outcome = .threw msg_output_too_large :=
  bomb_rejected (streamEngine (List.replicate 10000 97)) id (List.replicate 10000 97)
    100 46 false [] [] 2 (streamEngine_decodes _) (by rw [List.length_replicate]; decide)
    (by decide) (by decide) (by decide) (Or.inl rfl) (by decide)

/-! ## C3: no growth step goes beyond the ceiling -/

theorem inflateLoop_capacity {σ : Type} (E : Engine σ) (max_ : Nat) (data : List UInt8)
    (size : Nat) (bound : Nat) (fuel : Nat) (st : LoopState σ)
    (htr : ∀ n, Event.resize n ∈ st.trace → n ≤ max_)
    (hout : st.output.length ≤ max max_ bound) :
    (∀ n, Event.resize n ∈ (inflateLoop E max_ data size fuel st).trace → n ≤ max_) ∧
    (inflateLoop E max_ data size fuel st).output.length ≤ max max_ bound := by
  refine inflateLoop_induct E max_ data size
    (fun st => (∀ n, Event.resize n ∈ st.trace → n ≤ max_) ∧ st.output.length ≤ max max_ bound)
    (fun r => (∀ n, Event.resize n ∈ r.trace → n ≤ max_) ∧ r.output.length ≤ max max_ bound)
    ?_ ?_ ?_ fuel st ⟨htr, hout⟩
  · rintro st r ⟨h1, h2⟩ hit
    by_cases hc : resize_to size st > max_
    · rw [iteration_refused E max_ data size st hc] at hit
      cases hit
      refine ⟨?_, h2⟩
      intro n hn
      rcases List.mem_append.mp hn with h | h
      · exact h1 n h
      · rcases List.mem_singleton.mp h with h3
        cases h3
    · have hle := Nat.le_of_not_gt hc
      obtain ⟨hlen, tail, htail, htrace⟩ := iteration_grown E max_ data size st hle
      rw [hit] at hlen htrace
      refine ⟨?_, ?_⟩
      · intro n hn
        have hn2 : Event.resize n ∈ st.trace ++ Event.resize (resize_to size st) :: tail := by
          rw [← htrace]; exact hn
        rcases List.mem_append.mp hn2 with h | h
        · exact h1 n h
        · rcases List.mem_cons.mp h with h3 | h3
          · cases h3; exact hle
          · exact absurd h3 (htail n)
      · have : r.output.length = resize_to size st := hlen
        rw [this]
        exact le_trans hle (le_max_left _ _)
  · rintro st st2 ⟨h1, h2⟩ hit
    by_cases hc : resize_to size st > max_
    · rw [iteration_refused E max_ data size st hc] at hit
      cases hit
    · have hle := Nat.le_of_not_gt hc
      obtain ⟨hlen, tail, htail, htrace⟩ := iteration_grown E max_ data size st hle
      rw [hit] at hlen htrace
      refine ⟨?_, ?_⟩
      · intro n hn
        have hn2 : Event.resize n ∈ st.trace ++ Event.resize (resize_to size st) :: tail := by
          rw [← htrace]; exact hn
        rcases List.mem_append.mp hn2 with h | h
        · exact h1 n h
        · rcases List.mem_cons.mp h with h3 | h3
          · cases h3; exact hle
          · exact absurd h3 (htail n)
      · have : st2.output.length = resize_to size st := hlen
        rw [this]
        exact le_trans hle (le_max_left _ _)
  · rintro st ⟨h1, h2⟩
    exact ⟨h1, h2⟩

/-- C3: for every engine, ceiling, build, input and bound on the passes.  In every loop pass
the requested capacity is `size_uncompressed + 2 * size` (in `std::size_t` arithmetic: the
sum itself when it is below `2^64`); when it exceeds `M` the pass throws the output too-large
error after `inflateEnd`, with the output string untouched and no resize; otherwise the
string is resized to exactly that capacity, once, and has that length after the pass.
Over the whole call every resize recorded in the trace asks for at most `M`, and the output
string is never longer than the larger of `M` and its length on entry (so never longer
than `M` when it starts within `M`, in particular empty). -/
theorem capacity_invariant {σ : Type} (E : Engine σ) (M size : Nat) (DEBUG : Bool)
    (output data : List UInt8) (fuel : Nat) :
    (∀ st : LoopState σ,
      resize_to size st = (st.size_uncompressed + 2 * size) % SIZE_MOD ∧
      (st.size_uncompressed + 2 * size < SIZE_MOD →
        resize_to size st = st.size_uncompressed + 2 * size) ∧
      (resize_to size st > M →
        iteration E M data size st = .done (Result.mk (.threw msg_output_too_large)
          st.output (st.trace ++ [.inflateEnd]))) ∧
      (resize_to size st ≤ M →
        (iteration E M data size st).output.length = resize_to size st ∧
        ∃ tail : List Event, (∀ n, Event.resize n ∉ tail) ∧
          (iteration E M data size st).trace
            = st.trace ++ .resize (resize_to size st) :: tail)) ∧
    (∀ n, Event.resize n ∈ ((Decompressor.mk M).decompress E DEBUG output data size fuel).trace →
      n ≤ M) ∧
    ((Decompressor.mk M).decompress E DEBUG output data size fuel).output.length
      ≤ max M output.length := by
  refine ⟨fun st => ⟨?_, ?_, iteration_refused E M data size st,
    iteration_grown E M data size st⟩, ?_⟩
  · unfold resize_to SIZE_MOD
    omega
  · intro h
    unfold resize_to SIZE_MOD at *
    omega
  · rw [decompress_eq]
    have hnone : ∀ (ret : Int) (l : List Event), (∀ n, Event.resize n ∉ l) →
        ∀ n, Event.resize n ∈ Event.inflateInit2 window_bits ret :: l → n ≤ M := by
      intro ret l hl n hn
      rcases List.mem_cons.mp hn with h | h
      · cases h
      · exact absurd h (hl n)
    have hnil : ∀ n, Event.resize n ∉ ([] : List Event) := fun n hn => by cases hn
    have hend : ∀ n, Event.resize n ∉ [Event.inflateEnd] := fun n hn => by
      rcases List.mem_singleton.mp hn with h1
      cases h1
    split_ifs with h1 h2 h3
    · exact ⟨hnone _ _ hnil, le_max_right _ _⟩
    · exact ⟨hnone _ _ hend, le_max_right _ _⟩
    · exact ⟨hnone _ _ hend, le_max_right _ _⟩
    · exact inflateLoop_capacity E M data size output.length fuel _ (hnone _ _ hnil)
        (le_max_right _ _)

/-! ## C4: round trip through the free function -/

theorem inflateLoop_round_trip {σ : Type} {E : Engine σ} {pending : σ → List UInt8}
    {b : List UInt8} (hE : Decodes E pending b) (M size : Nat) (data : List UInt8)
    (hpos : 0 < size) (hd : 2 * size ≤ UINT_MAX) (hM : M < SIZE_MOD)
    (hfit : (b.length / (2 * size) + 1) * (2 * size) ≤ M) :
    ∀ (fuel : Nat) (st : LoopState σ),
      pending st.state = b.drop st.size_uncompressed →
      st.output.take st.size_uncompressed = b.take st.size_uncompressed →
      st.size_uncompressed ≤ st.output.length →
      st.size_uncompressed ≤ b.length →
      st.size_uncompressed % (2 * size) = 0 →
      (b.length - st.size_uncompressed) / (2 * size) < fuel →
      (inflateLoop E M data size fuel st).outcome = .returned b.length ∧
      b.length ≤ (inflateLoop E M data size fuel st).output.length ∧
      (inflateLoop E M data size fuel st).output.take b.length = b := by
  intro fuel
  induction fuel with
  | zero => intro st _ _ _ _ _ hf; exact absurd hf (Nat.not_lt_zero _)
  | succ k ih =>
    intro st hpend hout hsul hsub hmod hf
    have h2 : 0 < 2 * size := by omega
    have hcap := next_capacity_le st.size_uncompressed b.length (2 * size) hmod hsub
    have hdm : (2 * size) % SIZE_MOD = 2 * size := by
      unfold SIZE_MOD UINT_MAX at *
      omega
    have hdm2 : (2 * size) % SIZE_MOD ≤ UINT_MAX := by rw [hdm]; exact hd
    have hao : avail_out size = 2 * size := by
      unfold avail_out SIZE_MOD UINT_MOD UINT_MAX at *
      omega
    have hrt : resize_to size st = st.size_uncompressed + 2 * size := by
      unfold resize_to SIZE_MOD at *
      omega
    have hsto : stored E data size st = (b.drop st.size_uncompressed).take (2 * size) := by
      rw [stored_of_decodes hE, hpend, hao]
    have hlen : (stored E data size st).length
        = min (2 * size) (b.length - st.size_uncompressed) := by
      rw [hsto, List.length_take, List.length_drop]
    have hstl := stored_length_le E data size st
    have hin : st.size_uncompressed + (stored E data size st).length ≤ resize_to size st := by
      rw [hrt]; omega
    have hin2 : st.size_uncompressed + (stored E data size st).length
        ≤ (st.size_uncompressed + (2 * size) % SIZE_MOD) % SIZE_MOD := hin
    have hpa : produced_after E data size st
        = st.size_uncompressed + (stored E data size st).length :=
      produced_after_exact st.size_uncompressed size _ hdm2 hstl hin2
    have hle : st.size_uncompressed ≤ resize_to size st := by rw [hrt]; omega
    have htake : (store (resize st.output (resize_to size st)) st.size_uncompressed
          (stored E data size st)).take
          (st.size_uncompressed + (stored E data size st).length)
        = b.take (st.size_uncompressed + (stored E data size st).length) := by
      rw [take_store _ _ _ (by rw [resize_length]; exact hle), take_resize _ _ _ hsul hle,
        hout, List.take_add, hsto, take_length_take]
    have hstlen : (store (resize st.output (resize_to size st)) st.size_uncompressed
          (stored E data size st)).length = resize_to size st := by
      rw [store_length _ _ _ (by rw [resize_length]; exact hin), resize_length]
    rw [inflateLoop_succ]
    rcases iteration_cases E M data size st with
      ⟨h0, _⟩ | ⟨_, h0, _⟩ | ⟨_, _, h0, _⟩ | ⟨_, _, h0, _⟩ | ⟨_, _, _, h0, h⟩ | ⟨_, _, _, h0, h⟩
    · exfalso
      rw [hrt] at h0
      omega
    · exfalso
      omega
    · exact absurd (hE.status _ _ _ _ _) h0
    · exact absurd (hE.status _ _ _ _ _) h0
    · rw [h]
      have hfull : (stored E data size st).length = 2 * size := by omega
      have hroom : st.size_uncompressed + 2 * size ≤ b.length := by
        rw [hfull] at hlen
        omega
      refine ih _ ?_ ?_ ?_ ?_ ?_ ?_
      · show pending (feed E data size st).state = b.drop (produced_after E data size st)
        unfold feed
        rw [hE.rest, hpend, hpa, hfull, hao, List.drop_drop]
      · show (store _ _ _).take (produced_after E data size st)
          = b.take (produced_after E data size st)
        rw [hpa]
        exact htake
      · show produced_after E data size st ≤ (store _ _ _).length
        rw [hpa, hstlen]
        exact hin
      · show produced_after E data size st ≤ b.length
        rw [hpa, hfull]
        exact hroom
      · show produced_after E data size st % (2 * size) = 0
        rw [hpa, hfull, Nat.add_mod_right]
        exact hmod
      · show (b.length - produced_after E data size st) / (2 * size) < k
        rw [hpa, hfull]
        rw [Nat.div_lt_iff_lt_mul h2] at hf ⊢
        rw [Nat.add_mul, Nat.one_mul] at hf
        omega
    · rw [h]
      have hshort : (stored E data size st).length = b.length - st.size_uncompressed := by
        omega
      have hall : st.size_uncompressed + (stored E data size st).length = b.length := by
        omega
      refine ⟨?_, ?_, ?_⟩
      · show Outcome.returned (produced_after E data size st) = Outcome.returned b.length
        rw [hpa, hall]
      · show b.length ≤ (store _ _ _).length
        rw [hstlen, ← hall]
        exact hin
      · show (store _ _ _).take b.length = b
        rw [← hall, htake, hall, List.take_of_length_le (Nat.le_refl _)]

/-- C4 (as stated, refuted): an encoding of the 11 bytes of "hello world" that is
500,000,001 bytes long (a gzip member may carry a file name or a comment of any length).
Twice its length exceeds the default ceiling `1,000,000,000`, and the free function throws
the input too-large error instead of returning the 11 bytes. -/
theorem round_trip_counterexample :
    Decodes (streamEngine [104, 101, 108, 108, 111, 32, 119, 111, 114, 108, 100]) id
      [104, 101, 108, 108, 111, 32, 119, 111, 114, 108, 100] ∧
    ∀ fuel, decompress (streamEngine [104, 101, 108, 108, 111, 32, 119, 111, 114, 108, 100])
      false [] 500000001 fuel = .threw msg_input_too_large := by
  refine ⟨streamEngine_decodes _, fun fuel => ?_⟩
  have h : (Decompressor.mk 1000000000).decompress
      (streamEngine [104, 101, 108, 108, 111, 32, 119, 111, 114, 108, 100])
      false [] [] 500000001 fuel
      = Result.mk (.threw msg_input_too_large) []
          [.inflateInit2 window_bits Z_OK, .inflateEnd] := by
    rw [decompress_eq, if_neg (by decide), if_neg (by decide), if_pos (by decide)]
    rfl
  show (match ((Decompressor.mk 1000000000).decompress
      (streamEngine [104, 101, 108, 108, 111, 32, 119, 111, 114, 108, 100])
      false [] [] 500000001 fuel).outcome with
    | .returned uncompressed_size => Outcome.returned
        (resize ((Decompressor.mk 1000000000).decompress
          (streamEngine [104, 101, 108, 108, 111, 32, 119, 111, 114, 108, 100])
          false [] [] 500000001 fuel).output uncompressed_size)
    | .threw what => .threw what
    | .undefined => .undefined
    | .unfinished => .unfinished) = _
  rw [h]

/-- C4 (amended): for every byte sequence `b` and every non-empty encoding of it, of `size`
bytes, such that `(|b| / (2 * size) + 1) * (2 * size)` is at most the default ceiling
`1,000,000,000`, with the engine a decoder that delivers the bytes of `b` in order into the
regions it is fed, the free function returns exactly `b` as soon as the bound on the passes
exceeds `|b| / (2 * size)`. -/
theorem round_trip {σ : Type} (E : Engine σ) (pending : σ → List UInt8) (b : List UInt8)
    (size : Nat) (DEBUG : Bool) (data : List UInt8) (fuel : Nat)
    (hE : Decodes E pending b) (hpos : 0 < size)
    (hfit : (b.length / (2 * size) + 1) * (2 * size) ≤ 1000000000)
    (hfuel : b.length / (2 * size) < fuel) :
    decompress E DEBUG data size fuel = .returned b := by
  have h2s : 2 * size ≤ 1000000000 := by
    have : 1 * (2 * size) ≤ (b.length / (2 * size) + 1) * (2 * size) :=
      Nat.mul_le_mul_right _ (Nat.le_add_left _ _)
    omega
  have h1 : ¬ ((E.inflateInit2 window_bits).1 ≠ Z_OK) := fun hne => hne hE.init_ok
  have h2 : ¬ (DEBUG = true ∧ (size * 2) % SIZE_MOD > UINT_MAX) := by
    rintro ⟨_, hgt⟩
    unfold SIZE_MOD UINT_MAX at *
    omega
  have h3 : ¬ (size > 1000000000 ∨ (size * 2) % SIZE_MOD > 1000000000) := by
    unfold SIZE_MOD at *
    omega
  have hloop := inflateLoop_round_trip hE 1000000000 size data hpos
    (by unfold UINT_MAX; omega) (by decide) hfit fuel
    (LoopState.mk [] 0 0 (size % UINT_MOD) (E.inflateInit2 window_bits).2
      [.inflateInit2 window_bits (E.inflateInit2 window_bits).1])
    hE.init_pending rfl (Nat.zero_le _) (Nat.zero_le _) (Nat.zero_mod _) hfuel
  rw [← decompress_eq_loop E 1000000000 size DEBUG [] data fuel h1 h2 h3] at hloop
  obtain ⟨ho, hl, ht⟩ := hloop
  rw [decompress_returned_iff]
  exact ⟨b.length, ho, by rw [resize_of_le _ _ hl, ht]⟩

theorem round_trip_witness :
    decompress (streamEngine [104, 101, 108, 108, 111, 32, 119, 111, 114, 108, 100])
      false [31, 139, 8, 0] 31 1
      = .returned [104, 101, 108, 108, 111, 32, 119, 111, 114, 108, 100] :=
  round_trip (streamEngine [104, 101, 108, 108, 111, 32, 119, 111, 114, 108, 100]) id
    [104, 101, 108, 108, 111, 32, 119, 111, 114, 108, 100] 31 false [31, 139, 8, 0] 1
    (streamEngine_decodes _) (by decide) (by decide) (by decide)

/-! ## C5: the count returned and the bytes stored -/

theorem inflateLoop_exact {σ : Type} (E : Engine σ) (max_ : Nat) (data : List UInt8)
    (size : Nat) (hd : (2 * size) % SIZE_MOD ≤ UINT_MAX) (fuel : Nat) (st : LoopState σ)
    (h1 : st.size_uncompressed = (storedBytes st.trace).length)
    (h2 : st.size_uncompressed ≤ st.output.length)
    (h3 : st.output.take st.size_uncompressed = storedBytes st.trace)
    (n : Nat) (hn : (inflateLoop E max_ data size fuel st).outcome = .returned n) :
    n = (storedBytes (inflateLoop E max_ data size fuel st).trace).length ∧
    n ≤ (inflateLoop E max_ data size fuel st).output.length ∧
    (inflateLoop E max_ data size fuel st).output.take n
      = storedBytes (inflateLoop E max_ data size fuel st).trace := by
  have key : ∀ st : LoopState σ,
      st.size_uncompressed = (storedBytes st.trace).length →
      st.size_uncompressed ≤ st.output.length →
      st.output.take st.size_uncompressed = storedBytes st.trace →
      st.size_uncompressed + (stored E data size st).length ≤ resize_to size st →
      produced_after E data size st
          = (storedBytes (trace_fed E data size st)).length ∧
        produced_after E data size st
          ≤ (store (resize st.output (resize_to size st)) st.size_uncompressed
              (stored E data size st)).length ∧
        (store (resize st.output (resize_to size st)) st.size_uncompressed
            (stored E data size st)).take (produced_after E data size st)
          = storedBytes (trace_fed E data size st) := by
    intro st e1 e2 e3 hb
    have hpa : produced_after E data size st
        = st.size_uncompressed + (stored E data size st).length :=
      produced_after_exact st.size_uncompressed size _ hd (stored_length_le E data size st) hb
    have hle : st.size_uncompressed ≤ resize_to size st := le_trans (Nat.le_add_right _ _) hb
    rw [hpa, storedBytes_trace_fed, List.length_append, ← e1,
      store_length _ _ _ (by rw [resize_length]; exact hb), resize_length,
      take_store _ _ _ (by rw [resize_length]; exact hle),
      take_resize _ _ _ e2 hle, e3]
    exact ⟨rfl, hb, rfl⟩
  refine inflateLoop_induct E max_ data size
    (fun st => st.size_uncompressed = (storedBytes st.trace).length ∧
      st.size_uncompressed ≤ st.output.length ∧
      st.output.take st.size_uncompressed = storedBytes st.trace)
    (fun r => ∀ n, r.outcome = .returned n →
      n = (storedBytes r.trace).length ∧ n ≤ r.output.length ∧
      r.output.take n = storedBytes r.trace)
    ?_ ?_ ?_ fuel st ⟨h1, h2, h3⟩ n hn
  · rintro st r ⟨e1, e2, e3⟩ hit n hn
    rcases iteration_cases E max_ data size st with
      ⟨_, h⟩ | ⟨_, _, h⟩ | ⟨_, _, _, _, h⟩ | ⟨_, _, _, m, _, h⟩ | ⟨_, _, _, _, h⟩ | ⟨_, hb, _, _, h⟩
    all_goals rw [h] at hit
    all_goals cases hit
    all_goals cases hn
    obtain ⟨k1, k2, k3⟩ := key st e1 e2 e3 hb
    refine ⟨?_, k2, ?_⟩
    · show produced_after E data size st
        = (storedBytes (trace_fed E data size st ++ [Event.inflateEnd])).length
      rw [storedBytes_append, k1]
      simp only [storedBytes, List.append_nil]
    · show (store _ _ _).take (produced_after E data size st)
        = storedBytes (trace_fed E data size st ++ [Event.inflateEnd])
      rw [storedBytes_append, k3]
      simp only [storedBytes, List.append_nil]
  · rintro st st2 ⟨e1, e2, e3⟩ hit
    rcases iteration_cases E max_ data size st with
      ⟨_, h⟩ | ⟨_, _, h⟩ | ⟨_, _, _, _, h⟩ | ⟨_, _, _, m, _, h⟩ | ⟨_, hb, _, _, h⟩ | ⟨_, _, _, _, h⟩
    all_goals rw [h] at hit
    all_goals cases hit
    exact key st e1 e2 e3 hb
  · rintro st _ n hn
    cases hn

/-- C5 (as stated, refuted): `M = 2^33`, `size = 2^31 + 1`, no `DEBUG`, an engine that
stores the single byte `7`.  `2 * size = 2^32 + 2` is narrowed to `avail_out = 2`; the engine
stores one byte and leaves `avail_out = 1`; the count returned is
`2 * size - 1 = 4294967297`, while one byte was stored. -/
theorem exact_length_counterexample :
    ((Decompressor.mk 8589934592).decompress (streamEngine [7]) false [] [] 2147483649 1).outcome
      = .returned 4294967297 ∧
    storedBytes
      ((Decompressor.mk 8589934592).decompress (streamEngine [7]) false [] [] 2147483649 1).trace
      = [7] := by
  rw [decompress_eq, if_neg (by decide), if_neg (by decide), if_neg (by decide),
    inflateLoop_succ]
  rcases iteration_cases (streamEngine [7]) 8589934592 [] 2147483649
      (LoopState.mk [] 0 0 (2147483649 % UINT_MOD) ((streamEngine [7]).inflateInit2 window_bits).2
        [.inflateInit2 window_bits ((streamEngine [7]).inflateInit2 window_bits).1]) with
    ⟨h0, _⟩ | ⟨_, h0, _⟩ | ⟨_, _, h0, _⟩ | ⟨_, _, h0, _⟩ | ⟨_, _, _, h0, _⟩ | ⟨_, _, _, _, h⟩
  · exact absurd h0 (by decide)
  · exact absurd h0 (by decide)
  · exact absurd (show accepted _ by decide) h0
  · exact absurd (show accepted _ by decide) h0
  · exact absurd h0 (by decide)
  · rw [h]
    exact ⟨by decide, by decide⟩

/-- C5 (amended): for every engine, ceiling, input and bound on the passes.  When `2 * size`
(as computed in `std::size_t`) fits `unsigned int`, which every call that returns in a build
with `DEBUG` satisfies, and the member function returns `n`, then `n` is the total number of
bytes the feeds stored, the string is at least `n` long and its first `n` bytes are exactly
the stored bytes, in order.  When the free function returns `s` (default ceiling, so the
double always fits), `s` is exactly the stored bytes, with nothing after them. -/
theorem exact_length {σ : Type} (E : Engine σ) (M size : Nat) (DEBUG : Bool)
    (output data : List UInt8) (fuel : Nat) :
    (∀ n, (DEBUG = true ∨ (size * 2) % SIZE_MOD ≤ UINT_MAX) →
      ((Decompressor.mk M).decompress E DEBUG output data size fuel).outcome = .returned n →
      n = (storedBytes
            ((Decompressor.mk M).decompress E DEBUG output data size fuel).trace).length ∧
      n ≤ ((Decompressor.mk M).decompress E DEBUG output data size fuel).output.length ∧
      ((Decompressor.mk M).decompress E DEBUG output data size fuel).output.take n
        = storedBytes ((Decompressor.mk M).decompress E DEBUG output data size fuel).trace) ∧
    (∀ s, decompress E DEBUG data size fuel = .returned s →
      s = storedBytes
        ((Decompressor.mk 1000000000).decompress E DEBUG [] data size fuel).trace) := by
  have member : ∀ (M : Nat) (output : List UInt8) (n : Nat),
      (DEBUG = true ∨ (size * 2) % SIZE_MOD ≤ UINT_MAX ∨ M ≤ UINT_MAX) →
      ((Decompressor.mk M).decompress E DEBUG output data size fuel).outcome = .returned n →
      n = (storedBytes
            ((Decompressor.mk M).decompress E DEBUG output data size fuel).trace).length ∧
      n ≤ ((Decompressor.mk M).decompress E DEBUG output data size fuel).output.length ∧
      ((Decompressor.mk M).decompress E DEBUG output data size fuel).output.take n
        = storedBytes ((Decompressor.mk M).decompress E DEBUG output data size fuel).trace := by
    intro M output n hfit hn
    obtain ⟨_, hdbg, hchk, heq⟩ := decompress_returned_loop E M size DEBUG output data fuel n hn
    have hd : (2 * size) % SIZE_MOD ≤ UINT_MAX := by
      rw [Nat.mul_comm]
      rcases hfit with h | h | h
      · by_contra hc
        exact hdbg ⟨h, Nat.lt_of_not_le hc⟩
      · exact h
      · by_contra hc
        exact hchk (Or.inr (lt_of_le_of_lt h (Nat.lt_of_not_le hc)))
    rw [heq] at hn ⊢
    exact inflateLoop_exact E M data size hd fuel
      (LoopState.mk output 0 0 (size % UINT_MOD) (E.inflateInit2 window_bits).2
        [.inflateInit2 window_bits (E.inflateInit2 window_bits).1])
      rfl (Nat.zero_le _) rfl n hn
  constructor
  · intro n hfit hn
    exact member M output n (hfit.elim Or.inl (fun h => Or.inr (Or.inl h))) hn
  · intro s hs
    obtain ⟨n, hn, hsn⟩ := (decompress_returned_iff E DEBUG data size fuel s).mp hs
    obtain ⟨_, k2, k3⟩ := member 1000000000 [] n (Or.inr (Or.inr (by decide))) hn
    rw [hsn, resize_of_le _ _ k2, k3]

theorem exact_length_witness :
    (11 = (storedBytes ((Decompressor.mk 100).decompress
          (streamEngine [104, 101, 108, 108, 111, 32, 119, 111, 114, 108, 100])
          false [] [] 31 2).trace).length ∧
      11 ≤ ((Decompressor.mk 100).decompress
          (streamEngine [104, 101, 108, 108, 111, 32, 119, 111, 114, 108, 100])
          false [] [] 31 2).output.length ∧
      ((Decompressor.mk 100).decompress
          (streamEngine [104, 101, 108, 108, 111, 32, 119, 111, 114, 108, 100])
          false [] [] 31 2).output.take 11
        = storedBytes ((Decompressor.mk 100).decompress
          (streamEngine [104, 101, 108, 108, 111, 32, 119, 111, 114, 108, 100])
          false [] [] 31 2).trace) ∧
    [104, 101, 108, 108, 111, 32, 119, 111, 114, 108, 100] = storedBytes
      ((Decompressor.mk 1000000000).decompress
        (streamEngine [104, 101, 108, 108, 111, 32, 119, 111, 114, 108, 100])
        false [] [] 31 2).trace :=
  ⟨(exact_length (streamEngine [104, 101, 108, 108, 111, 32, 119, 111, 114, 108, 100])
      100 31 false [] [] 2).1 11 (Or.inr (by decide)) (by decide),
   (exact_length (streamEngine [104, 101, 108, 108, 111, 32, 119, 111, 114, 108, 100])
      100 31 false [] [] 2).2 _ (by decide)⟩

/-! ## C6: the status returned by a feed -/

/-- C6 (the code at the failing input): six input bytes that are a zlib header with the
preset-dictionary flag and a dictionary id.  The feed returns `Z_NEED_DICT`, which is none of
the three accepted statuses, and leaves `msg` null.  The driver builds a `std::string` from
that null pointer: the call has no defined behaviour, throws no `std::runtime_error` carrying
a diagnostic text, and `inflateEnd` is not reached. -/
theorem need_dict_undefined :
    ¬ accepted Z_NEED_DICT ∧
    (Decompressor.mk 1000000000).decompress needDictEngine false [] [120, 32, 0, 0, 0, 0] 6 3
      = Result.mk .undefined (List.replicate 12 0)
          [.inflateInit2 window_bits Z_OK, .resize 12,
           .inflate 6 12 Z_FINISH Z_NEED_DICT []] := by
  refine ⟨by decide, by decide⟩

/-- The part of the status mapping that holds in every pass whose growth step succeeds and
whose store stays inside the string: an accepted status leads to the update of
`size_uncompressed` and the test of `avail_out`; any other status, when the engine left a
message, leads to a `std::runtime_error` carrying that message after `inflateEnd`. -/
theorem status_mapping {σ : Type} (E : Engine σ) (M : Nat) (data : List UInt8) (size : Nat)
    (st : LoopState σ) (hcap : resize_to size st ≤ M)
    (hin : st.size_uncompressed + (stored E data size st).length ≤ resize_to size st) :
    (accepted (feed E data size st).ret →
      (avail_out size - (stored E data size st).length = 0 ∧
        ∃ st2, iteration E M data size st = .again st2 ∧
          st2.size_uncompressed = produced_after E data size st) ∨
      (avail_out size - (stored E data size st).length ≠ 0 ∧
        ∃ r, iteration E M data size st = .done r ∧
          r.outcome = .returned (produced_after E data size st))) ∧
    (∀ m, (feed E data size st).msg = some m →
      ((∃ r, iteration E M data size st = .done r ∧ r.outcome = .threw m ∧
          r.trace = trace_fed E data size st ++ [.inflateEnd])
        ↔ ¬ accepted (feed E data size st).ret)) := by
  rcases iteration_cases E M data size st with
    ⟨h0, _⟩ | ⟨_, h0, _⟩ | ⟨_, _, hna, hm, h⟩ | ⟨_, _, hna, m, hm, h⟩ | ⟨_, _, ha, hk, h⟩ |
    ⟨_, _, ha, hk, h⟩
  · exact absurd h0 (Nat.not_lt.mpr hcap)
  · exact absurd h0 (Nat.not_lt.mpr hin)
  · refine ⟨fun ha => absurd ha hna, fun m2 hm2 => ?_⟩
    rw [hm] at hm2
    cases hm2
  · refine ⟨fun ha => absurd ha hna, fun m2 hm2 => ?_⟩
    rw [hm] at hm2
    cases hm2
    exact ⟨fun _ => hna, fun _ => ⟨_, h, rfl, rfl⟩⟩
  · refine ⟨fun _ => Or.inl ⟨hk, _, h, rfl⟩, fun m hm => ?_⟩
    constructor
    · rintro ⟨r, hr, _, _⟩
      rw [h] at hr
      cases hr
    · intro hna
      exact absurd ha hna
  · refine ⟨fun _ => Or.inr ⟨hk, _, h, rfl⟩, fun m hm => ?_⟩
    constructor
    · rintro ⟨r, hr, ho, _⟩
      rw [h] at hr
      cases hr
      cases ho
    · intro hna
      exact absurd ha hna

/-! ## C7: what a successful call says about the stream -/

/-- C7 (as stated, refuted): a truncated stream.  The engine stores the two bytes it could
decode, has read all ten input bytes without reaching the end of the stream and reports
`Z_BUF_ERROR`, leaving 18 of the 20 bytes of the region unused.  The member function returns
2 and the free function returns the two bytes: a successful result holding partial output,
after a last status that is not `Z_STREAM_END`. -/
theorem truncated_stream_counterexample :
    (Decompressor.mk 1000000000).decompress (truncatedEngine [104, 101]) false [] [] 10 4
      = Result.mk (.returned 2) ([104, 101] ++ List.replicate 18 0)
          [.inflateInit2 window_bits Z_OK, .resize 20,
           .inflate 10 20 Z_FINISH Z_BUF_ERROR [104, 101], .inflateEnd] ∧
    decompress (truncatedEngine [104, 101]) false [] 10 4 = .returned [104, 101] ∧
    Z_BUF_ERROR ≠ Z_STREAM_END := by
  refine ⟨by decide, by decide, by decide⟩

/-- C7 (amended): for every engine, ceiling, build, input and bound on the passes.
Whenever the member function returns, the trace ends with a feed followed by the release,
the status that last feed reported is one of `Z_STREAM_END`, `Z_OK` and `Z_BUF_ERROR`, and
the feed stored fewer bytes than its output region holds.  And a stream whose first feed
reports an accepted status, `Z_BUF_ERROR` included, and stores fewer bytes than the region
holds is answered with a successful return of the number of bytes stored (here for an input
accepted by the size check whose double fits `unsigned int`, after a successful init). -/
theorem success_last_status {σ : Type} (E : Engine σ) (M size : Nat) (DEBUG : Bool)
    (output data : List UInt8) (fuel : Nat) :
    (∀ n, ((Decompressor.mk M).decompress E DEBUG output data size fuel).outcome = .returned n →
      ∃ (pre : List Event) (ai ao : Nat) (ret : Int) (sto : List UInt8),
        ((Decompressor.mk M).decompress E DEBUG output data size fuel).trace
          = pre ++ [.inflate ai ao Z_FINISH ret sto, .inflateEnd] ∧
        (ret = Z_STREAM_END ∨ ret = Z_OK ∨ ret = Z_BUF_ERROR) ∧ sto.length < ao) ∧
    ((E.inflateInit2 window_bits).1 = Z_OK →
      ¬ (size > M ∨ (size * 2) % SIZE_MOD > M) →
      (size * 2) % SIZE_MOD ≤ UINT_MAX →
      0 < fuel →
      accepted (E.inflate (E.inflateInit2 window_bits).2 data (size % UINT_MOD)
        (avail_out size) Z_FINISH).ret →
      ((E.inflate (E.inflateInit2 window_bits).2 data (size % UINT_MOD)
        (avail_out size) Z_FINISH).written.take (avail_out size)).length < avail_out size →
      ((Decompressor.mk M).decompress E DEBUG output data size fuel).outcome
        = .returned ((E.inflate (E.inflateInit2 window_bits).2 data (size % UINT_MOD)
            (avail_out size) Z_FINISH).written.take (avail_out size)).length) := by
  constructor
  · intro n hn
    obtain ⟨_, _, _, heq⟩ := decompress_returned_loop E M size DEBUG output data fuel n hn
    rw [heq] at hn ⊢
    obtain ⟨pre, ai, ao, ret, sto, h1, h2, h3, _⟩ :=
      inflateLoop_returned E M data size fuel _ (by decide : (0 : Nat) < SIZE_MOD) n hn
    exact ⟨pre, ai, ao, ret, sto, h1, h2, h3⟩
  · intro hinit hsize hfit hfuel hacc hshort
    have h1 : ¬ ((E.inflateInit2 window_bits).1 ≠ Z_OK) := fun hne => hne hinit
    have h2 : ¬ (DEBUG = true ∧ (size * 2) % SIZE_MOD > UINT_MAX) :=
      fun h => absurd h.2 (Nat.not_lt.mpr hfit)
    have hd : (2 * size) % SIZE_MOD ≤ UINT_MAX := by rw [Nat.mul_comm]; exact hfit
    obtain ⟨k, hk⟩ : ∃ k, fuel = k + 1 := ⟨fuel - 1, by omega⟩
    rw [decompress_eq_loop E M size DEBUG output data fuel h1 h2 hsize, hk, inflateLoop_succ]
    have hrt : resize_to size (LoopState.mk output 0 0 (size % UINT_MOD)
        (E.inflateInit2 window_bits).2
        [.inflateInit2 window_bits (E.inflateInit2 window_bits).1])
        = (2 * size) % SIZE_MOD := by
      show (0 + (2 * size) % SIZE_MOD) % SIZE_MOD = (2 * size) % SIZE_MOD
      unfold SIZE_MOD
      omega
    have hao : avail_out size ≤ (2 * size) % SIZE_MOD := by
      unfold avail_out
      exact Nat.mod_le _ _
    have hstl := stored_length_le E data size (LoopState.mk output 0 0 (size % UINT_MOD)
      (E.inflateInit2 window_bits).2
      [.inflateInit2 window_bits (E.inflateInit2 window_bits).1])
    rcases iteration_cases E M data size (LoopState.mk output 0 0 (size % UINT_MOD)
        (E.inflateInit2 window_bits).2
        [.inflateInit2 window_bits (E.inflateInit2 window_bits).1]) with
      ⟨h0, _⟩ | ⟨_, h0, _⟩ | ⟨_, _, h0, _⟩ | ⟨_, _, h0, _⟩ | ⟨_, _, _, h0, _⟩ | ⟨_, hin, _, _, h⟩
    · exfalso
      rw [hrt] at h0
      rw [Nat.mul_comm] at hsize
      exact hsize (Or.inr h0)
    · exfalso
      rw [hrt] at h0
      have h00 : 0 + (stored E data size (LoopState.mk output 0 0 (size % UINT_MOD)
          (E.inflateInit2 window_bits).2
          [.inflateInit2 window_bits (E.inflateInit2 window_bits).1])).length
          > (2 * size) % SIZE_MOD := h0
      omega
    · exact absurd hacc h0
    · exact absurd hacc h0
    · exfalso
      have hs : (stored E data size (LoopState.mk output 0 0 (size % UINT_MOD)
          (E.inflateInit2 window_bits).2
          [.inflateInit2 window_bits (E.inflateInit2 window_bits).1])).length
          < avail_out size := hshort
      omega
    · rw [h]
      show Outcome.returned (produced_after E data size _) = _
      have hpa := produced_after_exact 0 size _ hd hstl hin
      have hpa2 : produced_after E data size (LoopState.mk output 0 0 (size % UINT_MOD)
          (E.inflateInit2 window_bits).2
          [.inflateInit2 window_bits (E.inflateInit2 window_bits).1])
          = 0 + (stored E data size (LoopState.mk output 0 0 (size % UINT_MOD)
            (E.inflateInit2 window_bits).2
            [.inflateInit2 window_bits (E.inflateInit2 window_bits).1])).length := hpa
      rw [hpa2, Nat.zero_add]
      rfl

theorem success_last_status_witness :
    (∃ (pre : List Event) (ai ao : Nat) (ret : Int) (sto : List UInt8),
      ((Decompressor.mk 1000000000).decompress (truncatedEngine [104, 101]) false [] [] 10 4).trace
        = pre ++ [.inflate ai ao Z_FINISH ret sto, .inflateEnd] ∧
      (ret = Z_STREAM_END ∨ ret = Z_OK ∨ ret = Z_BUF_ERROR) ∧ sto.length < ao) ∧
    ((Decompressor.mk 1000000000).decompress (truncatedEngine [104, 101]) false [] [] 10 4).outcome
      = .returned 2 :=
  ⟨(success_last_status (truncatedEngine [104, 101]) 1000000000 10 false [] [] 4).1 2
      (by decide),
   (success_last_status (truncatedEngine [104, 101]) 1000000000 10 false [] [] 4).2
      (by decide) (by decide) (by decide) (by decide) (by decide) (by decide)⟩

/-! ## C8: an empty input -/

/-- C8 (the code at the failing input): `size = 0`.  Both checks pass, every pass resizes
the string to `0`, offers the engine a region of zero bytes and finds `avail_out == 0`
afterwards.  With an engine that answers such a feed with an accepted status (zlib answers
`Z_BUF_ERROR`), the call has not ended after any number of passes: for every ceiling, build,
string and bound, the outcome is `unfinished`. -/
theorem empty_input_never_ends {σ : Type} (E : Engine σ) (M : Nat) (DEBUG : Bool)
    (output data : List UInt8) (fuel : Nat)
    (hinit : (E.inflateInit2 window_bits).1 = Z_OK)
    (hacc : ∀ s next_in avail_in flush, accepted (E.inflate s next_in avail_in 0 flush).ret) :
    ((Decompressor.mk M).decompress E DEBUG output data 0 fuel).outcome = .unfinished := by
  have h1 : ¬ ((E.inflateInit2 window_bits).1 ≠ Z_OK) := fun hne => hne hinit
  have h2 : ¬ (DEBUG = true ∧ (0 * 2) % SIZE_MOD > UINT_MAX) := by
    rintro ⟨_, hgt⟩
    exact absurd hgt (by decide)
  have h3 : ¬ (0 > M ∨ (0 * 2) % SIZE_MOD > M) := by
    rintro (h | h)
    · exact absurd h (Nat.not_lt_zero _)
    · exact absurd h (Nat.not_lt_zero _)
  rw [decompress_eq, if_neg h1, if_neg h2, if_neg h3]
  exact inflateLoop_zero_region E M data 0 rfl hacc fuel _ rfl

theorem empty_input_never_ends_witness :
    ((Decompressor.mk 1000000000).decompress (truncatedEngine []) false [] [] 0 1000).outcome
      = .unfinished :=
  empty_input_never_ends (truncatedEngine []) 1000000000 false [] [] 1000 rfl
    (fun _ _ _ _ => Or.inr (Or.inr rfl))

/-! ## C9: the engine is released once, last -/

theorem trace_fed_loop {σ : Type} (E : Engine σ) (data : List UInt8) (size : Nat)
    (st : LoopState σ) (body : List Event)
    (hst : st.trace = .inflateInit2 window_bits Z_OK :: body)
    (hbody : ∀ e ∈ body, e.isLoopEvent = true) :
    ∃ body2 : List Event, (∀ e ∈ body2, e.isLoopEvent = true) ∧
      trace_fed E data size st = .inflateInit2 window_bits Z_OK :: body2 := by
  refine ⟨body ++ [.resize (resize_to size st), .inflate st.avail_in (avail_out size) Z_FINISH
    (feed E data size st).ret (stored E data size st)], ?_, ?_⟩
  · intro e he
    rcases List.mem_append.mp he with h | h
    · exact hbody e h
    · simp only [List.mem_cons, List.mem_singleton, List.not_mem_nil, or_false] at h
      rcases h with h | h <;> (subst h; rfl)
  · unfold trace_fed
    rw [hst]
    rfl

theorem inflateLoop_disciplined {σ : Type} (E : Engine σ) (max_ : Nat) (data : List UInt8)
    (size : Nat) (fuel : Nat) (st : LoopState σ)
    (hst : ∃ body : List Event, (∀ e ∈ body, e.isLoopEvent = true) ∧
      st.trace = .inflateInit2 window_bits Z_OK :: body) :
    (inflateLoop E max_ data size fuel st).disciplined := by
  refine inflateLoop_induct E max_ data size
    (fun st => ∃ body : List Event, (∀ e ∈ body, e.isLoopEvent = true) ∧
      st.trace = .inflateInit2 window_bits Z_OK :: body)
    Result.disciplined ?_ ?_ ?_ fuel st hst
  · rintro st r ⟨body, hbody, htr⟩ hit
    obtain ⟨body2, hbody2, htr2⟩ := trace_fed_loop E data size st body htr hbody
    rcases iteration_cases E max_ data size st with
      ⟨_, h⟩ | ⟨_, _, h⟩ | ⟨_, _, _, _, h⟩ | ⟨_, _, _, m, _, h⟩ | ⟨_, _, _, _, h⟩ | ⟨_, _, _, _, h⟩
    · rw [h] at hit
      cases hit
      exact ⟨body, hbody, Or.inl ⟨Or.inr ⟨_, rfl⟩, by rw [htr]; rfl⟩⟩
    · rw [h] at hit
      cases hit
      refine ⟨body2, hbody2, Or.inr ⟨?_, htr2⟩⟩
      rintro (⟨v, hv⟩ | ⟨w, hw⟩)
      · cases hv
      · cases hw
    · rw [h] at hit
      cases hit
      refine ⟨body2, hbody2, Or.inr ⟨?_, htr2⟩⟩
      rintro (⟨v, hv⟩ | ⟨w, hw⟩)
      · cases hv
      · cases hw
    · rw [h] at hit
      cases hit
      exact ⟨body2, hbody2, Or.inl ⟨Or.inr ⟨_, rfl⟩, by
        show trace_fed E data size st ++ [Event.inflateEnd] = _
        rw [htr2]; rfl⟩⟩
    · rw [h] at hit
      cases hit
    · rw [h] at hit
      cases hit
      exact ⟨body2, hbody2, Or.inl ⟨Or.inl ⟨_, rfl⟩, by
        show trace_fed E data size st ++ [Event.inflateEnd] = _
        rw [htr2]; rfl⟩⟩
  · rintro st st2 ⟨body, hbody, htr⟩ hit
    obtain ⟨body2, hbody2, htr2⟩ := trace_fed_loop E data size st body htr hbody
    rcases iteration_cases E max_ data size st with
      ⟨_, h⟩ | ⟨_, _, h⟩ | ⟨_, _, _, _, h⟩ | ⟨_, _, _, m, _, h⟩ | ⟨_, _, _, _, h⟩ | ⟨_, _, _, _, h⟩
    all_goals rw [h] at hit
    all_goals cases hit
    exact ⟨body2, hbody2, htr2⟩
  · rintro st ⟨body, hbody, htr⟩
    refine ⟨body, hbody, Or.inr ⟨?_, htr⟩⟩
    rintro (⟨v, hv⟩ | ⟨w, hw⟩)
    · cases hv
    · cases hw

theorem disciplined_one_release (r : Result) (hr : r.disciplined) (hend : r.outcome.ended) :
    r.trace.count .inflateEnd = 1 ∧ r.trace.getLast? = some .inflateEnd := by
  obtain ⟨body, hbody, ⟨_, htr⟩ | ⟨hne, _⟩⟩ := hr
  · have hnot : Event.inflateEnd ∉ body := by
      intro hmem
      have := hbody _ hmem
      cases this
    rw [htr]
    constructor
    · rw [List.count_cons, List.count_append, List.count_eq_zero_of_not_mem hnot]
      rfl
    · rw [← List.cons_append, List.getLast?_concat]
  · exact absurd hend hne

/-- The release discipline on the outcomes that are defined, for every engine, ceiling,
build, input and bound on the passes: if `inflateInit2` succeeded, the trace is the init
followed by resizes and feeds only and, exactly when the call returned or threw a
`std::runtime_error` (the input check, a growth step, an engine error that carries a
message), by one `inflateEnd` as its last event; if `inflateInit2` failed the call throws
"inflate init failed" and the trace is the init alone, with no feed and no release.  The
engine error without a message is not among these outcomes: see `release_skipped_need_dict`. -/
theorem release_discipline {σ : Type} (E : Engine σ) (M size : Nat) (DEBUG : Bool)
    (output data : List UInt8) (fuel : Nat) :
    ((E.inflateInit2 window_bits).1 = Z_OK →
      ((Decompressor.mk M).decompress E DEBUG output data size fuel).disciplined ∧
      (((Decompressor.mk M).decompress E DEBUG output data size fuel).outcome.ended →
        ((Decompressor.mk M).decompress E DEBUG output data size fuel).trace.count .inflateEnd
          = 1 ∧
        ((Decompressor.mk M).decompress E DEBUG output data size fuel).trace.getLast?
          = some .inflateEnd)) ∧
    ((E.inflateInit2 window_bits).1 ≠ Z_OK →
      (Decompressor.mk M).decompress E DEBUG output data size fuel
        = Result.mk (.threw msg_init_failed) output
            [.inflateInit2 window_bits (E.inflateInit2 window_bits).1]) := by
  constructor
  · intro hinit
    have hdisc : ((Decompressor.mk M).decompress E DEBUG output data size fuel).disciplined := by
      have h1 : ¬ ((E.inflateInit2 window_bits).1 ≠ Z_OK) := fun hne => hne hinit
      rw [decompress_eq, if_neg h1]
      split_ifs with h2 h3
      · exact ⟨[], by simp, Or.inl ⟨Or.inr ⟨_, rfl⟩, by rw [hinit]; rfl⟩⟩
      · exact ⟨[], by simp, Or.inl ⟨Or.inr ⟨_, rfl⟩, by rw [hinit]; rfl⟩⟩
      · exact inflateLoop_disciplined E M data size fuel _ ⟨[], by simp, by rw [hinit]⟩
    exact ⟨hdisc, disciplined_one_release _ hdisc⟩
  · intro hinit
    rw [decompress_eq, if_pos hinit]

theorem release_discipline_witness :
    (((Decompressor.mk 1000000000).decompress
        (streamEngine [104, 101, 108, 108, 111]) false [] [] 25 3).disciplined ∧
      (((Decompressor.mk 1000000000).decompress
          (streamEngine [104, 101, 108, 108, 111]) false [] [] 25 3).outcome.ended →
        ((Decompressor.mk 1000000000).decompress
          (streamEngine [104, 101, 108, 108, 111]) false [] [] 25 3).trace.count .inflateEnd
          = 1 ∧
        ((Decompressor.mk 1000000000).decompress
          (streamEngine [104, 101, 108, 108, 111]) false [] [] 25 3).trace.getLast?
          = some .inflateEnd)) ∧
    (Decompressor.mk 1000000000).decompress failingInitEngine false [] [] 25 3
      = Result.mk (.threw msg_init_failed) [] [.inflateInit2 window_bits Z_MEM_ERROR] :=
  ⟨(release_discipline (streamEngine [104, 101, 108, 108, 111]) 1000000000 25 false [] [] 3).1
      (by decide),
   (release_discipline failingInitEngine 1000000000 25 false [] [] 3).2 (by decide)⟩

/-- C9 (the code at the failing input): six input bytes that are a zlib header with the
preset-dictionary flag and a dictionary id, default ceiling.  `inflateInit2` succeeds; the
first feed returns `Z_NEED_DICT`, none of the accepted statuses, with `msg` null.  Whatever
the bound on the passes (at least one pass), the call is over after that feed: the error
branch builds a `std::string` from the null pointer before it reaches `inflateEnd`, so the
trace of the call is the init, one resize and one feed; the engine was initialised and fed
and the trace holds no release at all, and the call neither returned nor threw a
`std::runtime_error`. -/
theorem release_skipped_need_dict :
    (needDictEngine.inflateInit2 window_bits).1 = Z_OK ∧
    ¬ accepted Z_NEED_DICT ∧
    ∀ fuel, 0 < fuel →
      (Decompressor.mk 1000000000).decompress needDictEngine false [] [120, 32, 0, 0, 0, 0] 6 fuel
        = Result.mk .undefined (List.replicate 12 0)
            [.inflateInit2 window_bits Z_OK, .resize 12,
             .inflate 6 12 Z_FINISH Z_NEED_DICT []] ∧
      ((Decompressor.mk 1000000000).decompress needDictEngine false []
        [120, 32, 0, 0, 0, 0] 6 fuel).trace.count .inflateEnd = 0 ∧
      feedCount ((Decompressor.mk 1000000000).decompress needDictEngine false []
        [120, 32, 0, 0, 0, 0] 6 fuel).trace = 1 ∧
      ¬ ((Decompressor.mk 1000000000).decompress needDictEngine false []
        [120, 32, 0, 0, 0, 0] 6 fuel).outcome.ended := by
  refine ⟨rfl, by decide, fun fuel hfuel => ?_⟩
  obtain ⟨k, hk⟩ : ∃ k, fuel = k + 1 := ⟨fuel - 1, by omega⟩
  have heq : (Decompressor.mk 1000000000).decompress needDictEngine false []
      [120, 32, 0, 0, 0, 0] 6 fuel
      = Result.mk .undefined (List.replicate 12 0)
          [.inflateInit2 window_bits Z_OK, .resize 12,
           .inflate 6 12 Z_FINISH Z_NEED_DICT []] := by
    have hit : iteration needDictEngine 1000000000 [120, 32, 0, 0, 0, 0] 6
        (LoopState.mk [] 0 0 (6 % UINT_MOD) (needDictEngine.inflateInit2 window_bits).2
          [.inflateInit2 window_bits (needDictEngine.inflateInit2 window_bits).1])
        = .done (Result.mk .undefined (List.replicate 12 0)
            [.inflateInit2 window_bits Z_OK, .resize 12,
             .inflate 6 12 Z_FINISH Z_NEED_DICT []]) := by
      rfl
    rw [decompress_eq, if_neg (by decide), if_neg (by decide), if_neg (by decide), hk,
      inflateLoop_succ, hit]
  rw [heq]
  refine ⟨rfl, by decide, by decide, ?_⟩
  rintro (⟨v, hv⟩ | ⟨w, hw⟩)
  · cases hv
  · cases hw

/-! ## C10: the length of the string the member function leaves behind -/

/-- C10 (as stated, refuted): 31 input bytes that decode to the 11 bytes of "hello world".
The member function returns 11 and leaves a string of 62 bytes, the 11 decoded bytes and
51 bytes of the region that were never written. -/
theorem output_left_longer_counterexample :
    ((Decompressor.mk 1000000000).decompress
        (streamEngine [104, 101, 108, 108, 111, 32, 119, 111, 114, 108, 100])
        false [] [] 31 4).outcome = .returned 11 ∧
    ((Decompressor.mk 1000000000).decompress
        (streamEngine [104, 101, 108, 108, 111, 32, 119, 111, 114, 108, 100])
        false [] [] 31 4).output.length = 62 := by
  refine ⟨by decide, by decide⟩

/-- C10 (amended): for every engine, ceiling, build, input and bound on the passes.  When
the member function returns `n`, the string it leaves behind is longer than `n`: its length
is `n` plus the part of the last output region the engine left unused, which is not zero.
The truncation is done by the free function: when it returns `s`, the member function
(default ceiling, empty string) returned `s.length` and `s` is the first `s.length` bytes of
the string the member function left. -/
theorem output_length_on_success {σ : Type} (E : Engine σ) (M size : Nat) (DEBUG : Bool)
    (output data : List UInt8) (fuel : Nat) :
    (∀ n, ((Decompressor.mk M).decompress E DEBUG output data size fuel).outcome = .returned n →
      n < ((Decompressor.mk M).decompress E DEBUG output data size fuel).output.length ∧
      ∃ (pre : List Event) (ai ao : Nat) (ret : Int) (sto : List UInt8),
        ((Decompressor.mk M).decompress E DEBUG output data size fuel).trace
          = pre ++ [.inflate ai ao Z_FINISH ret sto, .inflateEnd] ∧
        sto.length < ao ∧
        ((Decompressor.mk M).decompress E DEBUG output data size fuel).output.length
          = n + (ao - sto.length)) ∧
    (∀ s, decompress E DEBUG data size fuel = .returned s →
      ((Decompressor.mk 1000000000).decompress E DEBUG [] data size fuel).outcome
        = .returned s.length ∧
      s = ((Decompressor.mk 1000000000).decompress E DEBUG [] data size fuel).output.take
        s.length) := by
  have member : ∀ (M : Nat) (output : List UInt8) (n : Nat),
      ((Decompressor.mk M).decompress E DEBUG output data size fuel).outcome = .returned n →
      n < ((Decompressor.mk M).decompress E DEBUG output data size fuel).output.length ∧
      ∃ (pre : List Event) (ai ao : Nat) (ret : Int) (sto : List UInt8),
        ((Decompressor.mk M).decompress E DEBUG output data size fuel).trace
          = pre ++ [.inflate ai ao Z_FINISH ret sto, .inflateEnd] ∧
        sto.length < ao ∧
        ((Decompressor.mk M).decompress E DEBUG output data size fuel).output.length
          = n + (ao - sto.length) := by
    intro M output n hn
    obtain ⟨_, _, _, heq⟩ := decompress_returned_loop E M size DEBUG output data fuel n hn
    rw [heq] at hn ⊢
    obtain ⟨pre, ai, ao, ret, sto, h1, _, h3, h4⟩ :=
      inflateLoop_returned E M data size fuel _ (by decide : (0 : Nat) < SIZE_MOD) n hn
    exact ⟨by omega, pre, ai, ao, ret, sto, h1, h3, h4⟩
  refine ⟨member M output, ?_⟩
  intro s hs
  obtain ⟨n, hn, hsn⟩ := (decompress_returned_iff E DEBUG data size fuel s).mp hs
  obtain ⟨hlt, _⟩ := member 1000000000 [] n hn
  have hlen : s.length = n := by
    rw [hsn, resize_length]
  rw [hlen]
  exact ⟨hn, by rw [hsn, resize_of_le _ _ (Nat.le_of_lt hlt)]⟩

theorem output_length_on_success_witness :
    (11 < ((Decompressor.mk 100).decompress
        (streamEngine [104, 101, 108, 108, 111, 32, 119, 111, 114, 108, 100])
        false [] [] 31 4).output.length ∧
      ∃ (pre : List Event) (ai ao : Nat) (ret : Int) (sto : List UInt8),
        ((Decompressor.mk 100).decompress
          (streamEngine [104, 101, 108, 108, 111, 32, 119, 111, 114, 108, 100])
          false [] [] 31 4).trace
          = pre ++ [.inflate ai ao Z_FINISH ret sto, .inflateEnd] ∧
        sto.length < ao ∧
        ((Decompressor.mk 100).decompress
          (streamEngine [104, 101, 108, 108, 111, 32, 119, 111, 114, 108, 100])
          false [] [] 31 4).output.length = 11 + (ao - sto.length)) ∧
    (((Decompressor.mk 1000000000).decompress
        (streamEngine [104, 101, 108, 108, 111, 32, 119, 111, 114, 108, 100])
        false [] [] 31 4).outcome
        = .returned [104, 101, 108, 108, 111, 32, 119, 111, 114, 108, 100].length ∧
      [104, 101, 108, 108, 111, 32, 119, 111, 114, 108, 100]
        = ((Decompressor.mk 1000000000).decompress
          (streamEngine [104, 101, 108, 108, 111, 32, 119, 111, 114, 108, 100])
          false [] [] 31 4).output.take
            [104, 101, 108, 108, 111, 32, 119, 111, 114, 108, 100].length) :=
  ⟨(output_length_on_success
      (streamEngine [104, 101, 108, 108, 111, 32, 119, 111, 114, 108, 100])
      100 31 false [] [] 4).1 11 (by decide),
   (output_length_on_success
      (streamEngine [104, 101, 108, 108, 111, 32, 119, 111, 114, 108, 100])
      100 31 false [] [] 4).2 [104, 101, 108, 108, 111, 32, 119, 111, 114, 108, 100] (by decide)⟩

/-! ## C11: the order of initialisation and validation -/

/-- C11 (as stated, refuted): two inputs that violate the ceiling.  (a) `size = 1 > M = 0`,
an engine whose `inflateInit2` fails with `Z_MEM_ERROR`: the engine is called first and the
outcome is "inflate init failed", not the too-large error.  (b) `size = 51`, `M = 100`
(`2 * size = 102 > M`), an engine whose init succeeds: before the too-large error is thrown
the engine has been initialised and released, two engine operations. -/
theorem validation_counterexample :
    ((1 > 0 ∨ 2 * 1 > 0) ∧
      (Decompressor.mk 0).decompress failingInitEngine false [] [31] 1 3
        = Result.mk (.threw msg_init_failed) [] [.inflateInit2 window_bits Z_MEM_ERROR]
      ∧ msg_init_failed ≠ msg_input_too_large) ∧
    ((51 > 100 ∨ 2 * 51 > 100) ∧
      (Decompressor.mk 100).decompress (streamEngine [104, 105]) false [] [] 51 3
        = Result.mk (.threw msg_input_too_large) []
            [.inflateInit2 window_bits Z_OK, .inflateEnd]) := by
  refine ⟨⟨by decide, by decide, by decide⟩, by decide, by decide⟩

/-- C11 (amended): for every input that violates the ceiling (`size > M`, or `size * 2` as
computed in `std::size_t` exceeds `M`), every engine, build, string and bound on the passes:
the first event of the call is `inflateInit2` and no feed and no resize ever happens.  When
the init fails the call throws "inflate init failed" and the trace is the init alone, with no
release.  When the init succeeds the trace is the init followed by one `inflateEnd`, and the
call throws the input too-large error, or, in a build with `DEBUG` when `size * 2` exceeds
`UINT_MAX`, the message of the `DEBUG` block. -/
theorem validation_after_init {σ : Type} (E : Engine σ) (M size : Nat) (DEBUG : Bool)
    (output data : List UInt8) (fuel : Nat)
    (h : size > M ∨ (size * 2) % SIZE_MOD > M) :
    ((E.inflateInit2 window_bits).1 ≠ Z_OK →
      (Decompressor.mk M).decompress E DEBUG output data size fuel
        = Result.mk (.threw msg_init_failed) output
            [.inflateInit2 window_bits (E.inflateInit2 window_bits).1]) ∧
    ((E.inflateInit2 window_bits).1 = Z_OK →
      ¬ (DEBUG = true ∧ (size * 2) % SIZE_MOD > UINT_MAX) →
      (Decompressor.mk M).decompress E DEBUG output data size fuel
        = Result.mk (.threw msg_input_too_large) output
            [.inflateInit2 window_bits Z_OK, .inflateEnd]) ∧
    ((E.inflateInit2 window_bits).1 = Z_OK →
      (DEBUG = true ∧ (size * 2) % SIZE_MOD > UINT_MAX) →
      (Decompressor.mk M).decompress E DEBUG output data size fuel
        = Result.mk (.threw msg_debug_too_large) output
            [.inflateInit2 window_bits Z_OK, .inflateEnd]) ∧
    ((Decompressor.mk M).decompress E DEBUG output data size fuel).trace.head?
      = some (.inflateInit2 window_bits (E.inflateInit2 window_bits).1) ∧
    feedCount ((Decompressor.mk M).decompress E DEBUG output data size fuel).trace = 0 ∧
    (∀ n, Event.resize n ∉
      ((Decompressor.mk M).decompress E DEBUG output data size fuel).trace) := by
  have hnores : ∀ (ret : Int) (n : Nat),
      Event.resize n ∉ [Event.inflateInit2 window_bits ret, Event.inflateEnd] := by
    intro ret n hn
    rcases List.mem_cons.mp hn with h1 | h1
    · cases h1
    · rcases List.mem_singleton.mp h1 with h2
      cases h2
  have hnores1 : ∀ (ret : Int) (n : Nat),
      Event.resize n ∉ [Event.inflateInit2 window_bits ret] := by
    intro ret n hn
    rcases List.mem_singleton.mp hn with h2
    cases h2
  by_cases h1 : (E.inflateInit2 window_bits).1 ≠ Z_OK
  · have heq : (Decompressor.mk M).decompress E DEBUG output data size fuel
        = Result.mk (.threw msg_init_failed) output
            [.inflateInit2 window_bits (E.inflateInit2 window_bits).1] := by
      rw [decompress_eq, if_pos h1]
    rw [heq]
    exact ⟨fun _ => rfl, fun h0 => absurd h0 h1, fun h0 => absurd h0 h1, rfl, rfl,
      hnores1 _⟩
  · have hok : (E.inflateInit2 window_bits).1 = Z_OK := not_not.mp h1
    by_cases h2 : DEBUG = true ∧ (size * 2) % SIZE_MOD > UINT_MAX
    · have heq : (Decompressor.mk M).decompress E DEBUG output data size fuel
          = Result.mk (.threw msg_debug_too_large) output
              [.inflateInit2 window_bits Z_OK, .inflateEnd] := by
        rw [decompress_eq, if_neg h1, if_pos h2, hok]
      rw [heq, hok]
      exact ⟨fun h0 => absurd rfl h0, fun _ h0 => absurd h2 h0, fun _ _ => rfl, rfl, rfl,
        hnores _⟩
    · have heq : (Decompressor.mk M).decompress E DEBUG output data size fuel
          = Result.mk (.threw msg_input_too_large) output
              [.inflateInit2 window_bits Z_OK, .inflateEnd] := by
        rw [decompress_eq, if_neg h1, if_neg h2, if_pos h, hok]
      rw [heq, hok]
      exact ⟨fun h0 => absurd rfl h0, fun _ _ => rfl, fun _ h0 => absurd h0 h2, rfl, rfl,
        hnores _⟩

theorem validation_after_init_witness :
    (Decompressor.mk 100).decompress failingInitEngine true [9] [1, 2] 60 4
        = Result.mk (.threw msg_init_failed) [9] [.inflateInit2 window_bits Z_MEM_ERROR] ∧
    (Decompressor.mk 100).decompress (streamEngine [104, 105]) true [9] [1, 2] 60 4
        = Result.mk (.threw msg_input_too_large) [9]
            [.inflateInit2 window_bits Z_OK, .inflateEnd] :=
  ⟨(validation_after_init failingInitEngine 100 60 true [9] [1, 2] 4
      (Or.inr (by decide))).1 (by decide),
   (validation_after_init (streamEngine [104, 105]) 100 60 true [9] [1, 2] 4
      (Or.inr (by decide))).2.1 (by decide) (by decide)⟩

/-! ## C12: the loop test and the extra pass -/

theorem inflateLoop_feed_bound {σ : Type} (E : Engine σ) (M size : Nat) (data : List UInt8)
    (hM : M ≤ UINT_MAX) (hpos : 0 < size) (h2s : 2 * size ≤ M) :
    ∀ (fuel : Nat) (st : LoopState σ),
      st.size_uncompressed = feedCount st.trace * (2 * size) →
      st.size_uncompressed ≤ M →
      feedCount (inflateLoop E M data size fuel st).trace ≤ M / (2 * size) ∧
      ((M - st.size_uncompressed) / (2 * size) < fuel →
        (inflateLoop E M data size fuel st).outcome ≠ .unfinished) := by
  have h2 : 0 < 2 * size := by omega
  intro fuel
  induction fuel with
  | zero =>
    intro st hsu hle
    refine ⟨?_, fun hf => absurd hf (Nat.not_lt_zero _)⟩
    show feedCount st.trace ≤ M / (2 * size)
    rw [Nat.le_div_iff_mul_le h2, ← hsu]
    exact hle
  | succ k ih =>
    intro st hsu hle
    have hrt : resize_to size st = st.size_uncompressed + 2 * size := by
      unfold resize_to SIZE_MOD UINT_MAX at *
      omega
    have hao : avail_out size = 2 * size := by
      unfold avail_out SIZE_MOD UINT_MOD UINT_MAX at *
      omega
    have hstl := stored_length_le E data size st
    have hfed : resize_to size st ≤ M →
        feedCount (trace_fed E data size st) ≤ M / (2 * size) := by
      intro hcap
      rw [feedCount_trace_fed, Nat.le_div_iff_mul_le h2, Nat.add_mul, Nat.one_mul, ← hsu,
        ← hrt]
      exact hcap
    rw [inflateLoop_succ]
    rcases iteration_cases E M data size st with
      ⟨_, h⟩ | ⟨_, h0, _⟩ | ⟨hcap, _, _, _, h⟩ | ⟨hcap, _, _, m, _, h⟩ | ⟨hcap, _, _, h0, h⟩ |
      ⟨hcap, _, _, _, h⟩
    · rw [h]
      refine ⟨?_, fun _ hne => by cases hne⟩
      show feedCount (st.trace ++ [Event.inflateEnd]) ≤ M / (2 * size)
      rw [feedCount_released, Nat.le_div_iff_mul_le h2, ← hsu]
      exact hle
    · exfalso
      rw [hrt] at h0
      omega
    · rw [h]
      exact ⟨hfed hcap, fun _ hne => by cases hne⟩
    · rw [h]
      refine ⟨?_, fun _ hne => by cases hne⟩
      show feedCount (trace_fed E data size st ++ [Event.inflateEnd]) ≤ M / (2 * size)
      rw [feedCount_released]
      exact hfed hcap
    · rw [h]
      have hpa : produced_after E data size st = st.size_uncompressed + 2 * size := by
        unfold produced_after
        rw [h0]
        unfold SIZE_MOD UINT_MAX at *
        omega
      have hnext := ih (LoopState.mk
          (store (resize st.output (resize_to size st)) st.size_uncompressed
            (stored E data size st))
          (produced_after E data size st)
          (st.next_in + min (feed E data size st).consumed st.avail_in)
          (st.avail_in - min (feed E data size st).consumed st.avail_in)
          (feed E data size st).state
          (trace_fed E data size st))
        (by
          show produced_after E data size st = feedCount (trace_fed E data size st) * (2 * size)
          rw [hpa, feedCount_trace_fed, Nat.add_mul, Nat.one_mul, ← hsu])
        (by
          show produced_after E data size st ≤ M
          rw [hpa, ← hrt]
          exact hcap)
      refine ⟨hnext.1, fun hf => hnext.2 ?_⟩
      show (M - produced_after E data size st) / (2 * size) < k
      rw [hpa]
      rw [hrt] at hcap
      rw [Nat.div_lt_iff_lt_mul h2] at hf ⊢
      rw [Nat.add_mul, Nat.one_mul] at hf
      omega
    · rw [h]
      refine ⟨?_, fun _ hne => by cases hne⟩
      show feedCount (trace_fed E data size st ++ [Event.inflateEnd]) ≤ M / (2 * size)
      rw [feedCount_released]
      exact hfed hcap

/-- C13: for every ceiling `M` below `2^32`, every input length `size > 0` that passes the
input check, every engine, build, string and input.  Whatever the bound on the passes, the
trace holds at most `M / (2 * size)` calls of `inflate`; as soon as the bound exceeds
`M / (2 * size)` the call is not left unfinished, so the loop has ended; and every pass that
repeats raises `size_uncompressed` by exactly `2 * size`, while a pass only feeds the engine
when `size_uncompressed + 2 * size ≤ M`. -/
theorem feed_calls_bounded {σ : Type} (E : Engine σ) (M size : Nat) (DEBUG : Bool)
    (output data : List UInt8) (fuel : Nat)
    (hM : M < 4294967296) (hpos : 0 < size)
    (hcheck : ¬ (size > M ∨ (size * 2) % SIZE_MOD > M)) :
    feedCount ((Decompressor.mk M).decompress E DEBUG output data size fuel).trace
      ≤ M / (2 * size) ∧
    (M / (2 * size) < fuel →
      ((Decompressor.mk M).decompress E DEBUG output data size fuel).outcome ≠ .unfinished) ∧
    (∀ st st2 : LoopState σ, st.size_uncompressed ≤ M →
      iteration E M data size st = .again st2 →
      st.size_uncompressed + 2 * size ≤ M ∧
      st2.size_uncompressed = st.size_uncompressed + 2 * size ∧
      feedCount st2.trace = feedCount st.trace + 1) := by
  have hMu : M ≤ UINT_MAX := by unfold UINT_MAX; omega
  have h2s : 2 * size ≤ M := by
    unfold SIZE_MOD at hcheck
    omega
  have hloop := inflateLoop_feed_bound E M size data hMu hpos h2s fuel
    (LoopState.mk output 0 0 (size % UINT_MOD) (E.inflateInit2 window_bits).2
      [.inflateInit2 window_bits (E.inflateInit2 window_bits).1])
    (by show 0 = feedCount [Event.inflateInit2 window_bits _] * (2 * size)
        rw [show feedCount [Event.inflateInit2 window_bits (E.inflateInit2 window_bits).1] = 0
          from rfl, Nat.zero_mul])
    (Nat.zero_le _)
  refine ⟨?_, ?_, ?_⟩
  · rw [decompress_eq]
    by_cases h1 : (E.inflateInit2 window_bits).1 ≠ Z_OK
    · rw [if_pos h1]
      exact Nat.zero_le _
    · rw [if_neg h1]
      by_cases h2 : DEBUG = true ∧ (size * 2) % SIZE_MOD > UINT_MAX
      · rw [if_pos h2]
        exact Nat.zero_le _
      · rw [if_neg h2, if_neg hcheck]
        exact hloop.1
  · intro hf
    rw [decompress_eq]
    by_cases h1 : (E.inflateInit2 window_bits).1 ≠ Z_OK
    · rw [if_pos h1]
      intro hne
      cases hne
    · rw [if_neg h1]
      by_cases h2 : DEBUG = true ∧ (size * 2) % SIZE_MOD > UINT_MAX
      · rw [if_pos h2]
        intro hne
        cases hne
      · rw [if_neg h2, if_neg hcheck]
        exact hloop.2 hf
  · intro st st2 hle hit
    have hao : avail_out size = 2 * size := by
      unfold avail_out SIZE_MOD UINT_MOD UINT_MAX at *
      omega
    have hrt : resize_to size st = st.size_uncompressed + 2 * size := by
      unfold resize_to SIZE_MOD UINT_MAX at *
      omega
    rcases iteration_cases E M data size st with
      ⟨_, h⟩ | ⟨_, _, h⟩ | ⟨_, _, _, _, h⟩ | ⟨_, _, _, m, _, h⟩ | ⟨hcap, _, _, h0, h⟩ |
      ⟨_, _, _, _, h⟩
    all_goals rw [h] at hit
    all_goals cases hit
    rw [hrt] at hcap
    refine ⟨hcap, ?_, feedCount_trace_fed E data size st⟩
    show produced_after E data size st = st.size_uncompressed + 2 * size
    unfold produced_after
    rw [h0]
    unfold SIZE_MOD UINT_MAX at *
    omega

theorem feed_calls_bounded_witness :
    feedCount ((Decompressor.mk 200).decompress (streamEngine (List.replicate 10000 97))
        false [] [] 46 5).trace ≤ 200 / (2 * 46) ∧
    (200 / (2 * 46) < 5 →
      ((Decompressor.mk 200).decompress (streamEngine (List.replicate 10000 97))
        false [] [] 46 5).outcome ≠ .unfinished) ∧
    (∀ st st2 : LoopState (List UInt8), st.size_uncompressed ≤ 200 →
      iteration (streamEngine (List.replicate 10000 97)) 200 [] 46 st = .again st2 →
      st.size_uncompressed + 2 * 46 ≤ 200 ∧
      st2.size_uncompressed = st.size_uncompressed + 2 * 46 ∧
      feedCount st2.trace = feedCount st.trace + 1) :=
  feed_calls_bounded (streamEngine (List.replicate 10000 97)) 200 46 false [] [] 5
    (by decide) (by decide) (by decide)

/-! ## C14: when a decoded stream is returned -/

/-- C14: for every ceiling `M` below `2^32`, every input length `size > 0` with
`2 * size ≤ M`, and every engine that delivers a stream of `N = |b|` bytes, storing as many
pending bytes as the region takes and reporting an accepted status.  If
`(N / (2 * size) + 1) * (2 * size) ≤ M`, the call returns `N` after exactly
`N / (2 * size) + 1` feeds, as soon as the bound on the passes exceeds `N / (2 * size)`.
Otherwise no bound on the passes makes the call return, and it throws the output too-large
error as soon as the bound exceeds `M / (2 * size)`.  Hence the call succeeds if and only if
`(N / (2 * size) + 1) * (2 * size) ≤ M`; `N ≤ M` is not enough (`N = M = 2 * size`). -/
theorem exact_success_condition {σ : Type} (E : Engine σ) (pending : σ → List UInt8)
    (b : List UInt8) (M size : Nat) (DEBUG : Bool) (output data : List UInt8)
    (hE : Decodes E pending b) (hM : M < 4294967296) (hpos : 0 < size)
    (h2s : 2 * size ≤ M) :
    ((b.length / (2 * size) + 1) * (2 * size) ≤ M →
      ∀ fuel, b.length / (2 * size) < fuel →
        ((Decompressor.mk M).decompress E DEBUG output data size fuel).outcome
          = .returned b.length ∧
        feedCount ((Decompressor.mk M).decompress E DEBUG output data size fuel).trace
          = b.length / (2 * size) + 1) ∧
    (¬ (b.length / (2 * size) + 1) * (2 * size) ≤ M →
      (∀ fuel n, ((Decompressor.mk M).decompress E DEBUG output data size fuel).outcome
        ≠ .returned n) ∧
      ∀ fuel, M / (2 * size) < fuel →
        ((Decompressor.mk M).decompress E DEBUG output data size fuel).outcome
          = .threw msg_output_too_large) ∧
    ((∃ fuel n, ((Decompressor.mk M).decompress E DEBUG output data size fuel).outcome
        = .returned n)
      ↔ (b.length / (2 * size) + 1) * (2 * size) ≤ M) := by
  have hMu : M ≤ UINT_MAX := by unfold UINT_MAX; omega
  have hMs : M < SIZE_MOD := by unfold SIZE_MOD; omega
  have hd : 2 * size ≤ UINT_MAX := le_trans h2s hMu
  have h1 : ¬ ((E.inflateInit2 window_bits).1 ≠ Z_OK) := fun hne => hne hE.init_ok
  have hdbg : ¬ (DEBUG = true ∧ (size * 2) % SIZE_MOD > UINT_MAX) := by
    rintro ⟨_, hgt⟩
    unfold SIZE_MOD UINT_MAX at *
    omega
  have hchk : ¬ (size > M ∨ (size * 2) % SIZE_MOD > M) := by
    unfold SIZE_MOD UINT_MAX at *
    omega
  have hyes : (b.length / (2 * size) + 1) * (2 * size) ≤ M →
      ∀ fuel, b.length / (2 * size) < fuel →
        ((Decompressor.mk M).decompress E DEBUG output data size fuel).outcome
          = .returned b.length ∧
        feedCount ((Decompressor.mk M).decompress E DEBUG output data size fuel).trace
          = b.length / (2 * size) + 1 := by
    intro hfit fuel hfuel
    have hloop := inflateLoop_decodes_trace hE M size data hpos hd hMs hfit fuel
      (LoopState.mk output 0 0 (size % UINT_MOD) (E.inflateInit2 window_bits).2
        [.inflateInit2 window_bits (E.inflateInit2 window_bits).1])
      hE.init_pending (Nat.zero_le _) (Nat.zero_mod _) hfuel
    rw [← decompress_eq_loop E M size DEBUG output data fuel h1 hdbg hchk] at hloop
    refine ⟨hloop.1, ?_⟩
    rw [hloop.2.1]
    show 0 + (b.length - 0) / (2 * size) + 1 = b.length / (2 * size) + 1
    rw [Nat.sub_zero, Nat.zero_add]
  have hno : ¬ (b.length / (2 * size) + 1) * (2 * size) ≤ M →
      (∀ fuel n, ((Decompressor.mk M).decompress E DEBUG output data size fuel).outcome
        ≠ .returned n) ∧
      ∀ fuel, M / (2 * size) < fuel →
        ((Decompressor.mk M).decompress E DEBUG output data size fuel).outcome
          = .threw msg_output_too_large := by
    intro hover
    have hloop := fun fuel => inflateLoop_decodes_refused hE M size data hpos hMu h2s
      (Nat.lt_of_not_le hover) fuel
      (LoopState.mk output 0 0 (size % UINT_MOD) (E.inflateInit2 window_bits).2
        [.inflateInit2 window_bits (E.inflateInit2 window_bits).1])
      hE.init_pending (Nat.zero_le _) (Nat.zero_mod _) (Nat.zero_le _)
    constructor
    · intro fuel n
      rw [decompress_eq_loop E M size DEBUG output data fuel h1 hdbg hchk]
      exact (hloop fuel).1 n
    · intro fuel hfuel
      rw [decompress_eq_loop E M size DEBUG output data fuel h1 hdbg hchk]
      exact (hloop fuel).2 hfuel
  refine ⟨hyes, hno, ?_, ?_⟩
  · rintro ⟨fuel, n, hn⟩
    by_contra hover
    exact (hno hover).1 fuel n hn
  · intro hfit
    exact ⟨b.length / (2 * size) + 1, b.length, (hyes hfit _ (Nat.lt_succ_self _)).1⟩

theorem exact_success_condition_witness :
    (([(7 : UInt8), 8].length / (2 * 1) + 1) * (2 * 1) ≤ 2 →
      ∀ fuel, [(7 : UInt8), 8].length / (2 * 1) < fuel →
        ((Decompressor.mk 2).decompress (streamEngine [7, 8]) true [] [] 1 fuel).outcome
          = .returned [(7 : UInt8), 8].length ∧
        feedCount ((Decompressor.mk 2).decompress (streamEngine [7, 8]) true [] [] 1 fuel).trace
          = [(7 : UInt8), 8].length / (2 * 1) + 1) ∧
    (¬ ([(7 : UInt8), 8].length / (2 * 1) + 1) * (2 * 1) ≤ 2 →
      (∀ fuel n, ((Decompressor.mk 2).decompress (streamEngine [7, 8]) true [] [] 1 fuel).outcome
        ≠ .returned n) ∧
      ∀ fuel, 2 / (2 * 1) < fuel →
        ((Decompressor.mk 2).decompress (streamEngine [7, 8]) true [] [] 1 fuel).outcome
          = .threw msg_output_too_large) ∧
    ((∃ fuel n, ((Decompressor.mk 2).decompress (streamEngine [7, 8]) true [] [] 1 fuel).outcome
        = .returned n)
      ↔ ([(7 : UInt8), 8].length / (2 * 1) + 1) * (2 * 1) ≤ 2) :=
  exact_success_condition (streamEngine [7, 8]) id [7, 8] 2 1 true [] []
    (streamEngine_decodes _) (by decide) (by decide) (by decide)

/-! ## C15: the error branch when the engine left no message -/

/-- C15 (the code at the failing input): whenever the first feed reports a status outside
the three accepted ones and leaves `msg` null (after a successful init, on an input accepted
by the checks), the driver builds a `std::string` from the null pointer: the call has no
defined behaviour, throws no `std::runtime_error` at all, and the trace holds no
`inflateEnd`. -/
theorem null_message_undefined {σ : Type} (E : Engine σ) (M size : Nat) (DEBUG : Bool)
    (output data : List UInt8) (fuel : Nat)
    (hinit : (E.inflateInit2 window_bits).1 = Z_OK)
    (hdebug : ¬ (DEBUG = true ∧ (size * 2) % SIZE_MOD > UINT_MAX))
    (hsize : ¬ (size > M ∨ (size * 2) % SIZE_MOD > M))
    (hfuel : 0 < fuel)
    (hret : ¬ accepted (E.inflate (E.inflateInit2 window_bits).2 data (size % UINT_MOD)
      (avail_out size) Z_FINISH).ret)
    (hmsg : (E.inflate (E.inflateInit2 window_bits).2 data (size % UINT_MOD)
      (avail_out size) Z_FINISH).msg = none) :
    ((Decompressor.mk M).decompress E DEBUG output data size fuel).outcome = .undefined ∧
    (∀ what, ((Decompressor.mk M).decompress E DEBUG output data size fuel).outcome
      ≠ .threw what) ∧
    Event.inflateEnd ∉ ((Decompressor.mk M).decompress E DEBUG output data size fuel).trace := by
  have h1 : ¬ ((E.inflateInit2 window_bits).1 ≠ Z_OK) := fun hne => hne hinit
  obtain ⟨k, hk⟩ : ∃ k, fuel = k + 1 := ⟨fuel - 1, by omega⟩
  rw [decompress_eq_loop E M size DEBUG output data fuel h1 hdebug hsize, hk, inflateLoop_succ]
  have hrt : resize_to size (LoopState.mk output 0 0 (size % UINT_MOD)
      (E.inflateInit2 window_bits).2
      [.inflateInit2 window_bits (E.inflateInit2 window_bits).1])
      = (2 * size) % SIZE_MOD := by
    show (0 + (2 * size) % SIZE_MOD) % SIZE_MOD = (2 * size) % SIZE_MOD
    unfold SIZE_MOD
    omega
  have hao : avail_out size ≤ (2 * size) % SIZE_MOD := by
    unfold avail_out
    exact Nat.mod_le _ _
  have hstl := stored_length_le E data size (LoopState.mk output 0 0 (size % UINT_MOD)
    (E.inflateInit2 window_bits).2
    [.inflateInit2 window_bits (E.inflateInit2 window_bits).1])
  rcases iteration_cases E M data size (LoopState.mk output 0 0 (size % UINT_MOD)
      (E.inflateInit2 window_bits).2
      [.inflateInit2 window_bits (E.inflateInit2 window_bits).1]) with
    ⟨h0, _⟩ | ⟨_, h0, _⟩ | ⟨_, _, _, _, h⟩ | ⟨_, _, _, m, hm, _⟩ | ⟨_, _, h0, _⟩ | ⟨_, _, h0, _⟩
  · exfalso
    rw [hrt] at h0
    rw [Nat.mul_comm] at hsize
    exact hsize (Or.inr h0)
  · exfalso
    rw [hrt] at h0
    have h00 : 0 + (stored E data size (LoopState.mk output 0 0 (size % UINT_MOD)
        (E.inflateInit2 window_bits).2
        [.inflateInit2 window_bits (E.inflateInit2 window_bits).1])).length
        > (2 * size) % SIZE_MOD := h0
    omega
  · rw [h]
    refine ⟨rfl, ?_, ?_⟩
    · intro what hw
      have hw2 : (Outcome.undefined : Outcome Nat) = Outcome.threw what := hw
      cases hw2
    intro hmem
    have hmem2 : Event.inflateEnd ∈ trace_fed E data size (LoopState.mk output 0 0
        (size % UINT_MOD) (E.inflateInit2 window_bits).2
        [.inflateInit2 window_bits (E.inflateInit2 window_bits).1]) := hmem
    unfold trace_fed at hmem2
    simp at hmem2
  · exfalso
    have hm2 : (E.inflate (E.inflateInit2 window_bits).2 data (size % UINT_MOD)
        (avail_out size) Z_FINISH).msg = some m := hm
    rw [hmsg] at hm2
    cases hm2
  · exact absurd h0 hret
  · exact absurd h0 hret

theorem null_message_undefined_witness :
    ((Decompressor.mk 1000000000).decompress memErrorEngine false [] [31, 139, 8, 0] 4 2).outcome
      = .undefined ∧
    (∀ what, ((Decompressor.mk 1000000000).decompress memErrorEngine false []
        [31, 139, 8, 0] 4 2).outcome ≠ .threw what) ∧
    Event.inflateEnd ∉
      ((Decompressor.mk 1000000000).decompress memErrorEngine false [] [31, 139, 8, 0] 4 2).trace :=
  null_message_undefined memErrorEngine 1000000000 4 false [] [31, 139, 8, 0] 2
    (by decide) (by decide) (by decide) (by decide) (by decide) (by decide)

/-! ## C16: the narrowing casts under a ceiling that fits `unsigned int` -/

theorem feedArgs_fed_ok (size ai : Nat) (l : List (Nat × Nat)) (hai : ai ≤ size)
    (hall : ∀ p ∈ l, p.1 ≤ size ∧ p.2 = 2 * size)
    (hhead : (l = [] ∧ ai = size) ∨ l.head? = some (size, 2 * size)) :
    (∀ p ∈ l ++ [(ai, 2 * size)], p.1 ≤ size ∧ p.2 = 2 * size) ∧
    (l ++ [(ai, 2 * size)]).head? = some (size, 2 * size) := by
  constructor
  · intro p hp
    rcases List.mem_append.mp hp with h | h
    · exact hall p h
    · rcases List.mem_singleton.mp h with h1
      rw [h1]
      exact ⟨hai, rfl⟩
  · rcases hhead with ⟨hnil, hsz⟩ | hsome
    · rw [hnil, hsz]
      rfl
    · cases l with
      | nil => cases hsome
      | cons a t => exact hsome

theorem inflateLoop_feed_args {σ : Type} (E : Engine σ) (M size : Nat) (data : List UInt8)
    (hao : avail_out size = 2 * size) (fuel : Nat) (st : LoopState σ)
    (hai : st.avail_in ≤ size)
    (hall : ∀ p ∈ feedArgs st.trace, p.1 ≤ size ∧ p.2 = 2 * size)
    (hhead : (feedArgs st.trace = [] ∧ st.avail_in = size) ∨
      (feedArgs st.trace).head? = some (size, 2 * size)) :
    (∀ p ∈ feedArgs (inflateLoop E M data size fuel st).trace, p.1 ≤ size ∧ p.2 = 2 * size) ∧
    ((feedArgs (inflateLoop E M data size fuel st).trace).head? = none ∨
      (feedArgs (inflateLoop E M data size fuel st).trace).head? = some (size, 2 * size)) := by
  have hold : ∀ l : List (Nat × Nat), ∀ ai : Nat,
      ((l = [] ∧ ai = size) ∨ l.head? = some (size, 2 * size)) →
      (l.head? = none ∨ l.head? = some (size, 2 * size)) := by
    intro l ai h
    rcases h with ⟨hnil, _⟩ | hsome
    · rw [hnil]
      exact Or.inl rfl
    · exact Or.inr hsome
  refine inflateLoop_induct E M data size
    (fun st => st.avail_in ≤ size ∧
      (∀ p ∈ feedArgs st.trace, p.1 ≤ size ∧ p.2 = 2 * size) ∧
      ((feedArgs st.trace = [] ∧ st.avail_in = size) ∨
        (feedArgs st.trace).head? = some (size, 2 * size)))
    (fun r => (∀ p ∈ feedArgs r.trace, p.1 ≤ size ∧ p.2 = 2 * size) ∧
      ((feedArgs r.trace).head? = none ∨ (feedArgs r.trace).head? = some (size, 2 * size)))
    ?_ ?_ ?_ fuel st ⟨hai, hall, hhead⟩
  · rintro st r ⟨e1, e2, e3⟩ hit
    have hfed := feedArgs_fed_ok size st.avail_in (feedArgs st.trace) e1 e2 e3
    rw [← hao, ← feedArgs_trace_fed E data size st] at hfed
    rw [hao] at hfed
    rcases iteration_cases E M data size st with
      ⟨_, h⟩ | ⟨_, _, h⟩ | ⟨_, _, _, _, h⟩ | ⟨_, _, _, m, _, h⟩ | ⟨_, _, _, _, h⟩ | ⟨_, _, _, _, h⟩
    all_goals rw [h] at hit
    all_goals cases hit
    · show (∀ p ∈ feedArgs (st.trace ++ [Event.inflateEnd]), p.1 ≤ size ∧ p.2 = 2 * size) ∧
        ((feedArgs (st.trace ++ [Event.inflateEnd])).head? = none ∨
          (feedArgs (st.trace ++ [Event.inflateEnd])).head? = some (size, 2 * size))
      rw [feedArgs_released]
      exact ⟨e2, hold _ _ e3⟩
    · exact ⟨hfed.1, Or.inr hfed.2⟩
    · exact ⟨hfed.1, Or.inr hfed.2⟩
    · show (∀ p ∈ feedArgs (trace_fed E data size st ++ [Event.inflateEnd]),
          p.1 ≤ size ∧ p.2 = 2 * size) ∧
        ((feedArgs (trace_fed E data size st ++ [Event.inflateEnd])).head? = none ∨
          (feedArgs (trace_fed E data size st ++ [Event.inflateEnd])).head?
            = some (size, 2 * size))
      rw [feedArgs_released]
      exact ⟨hfed.1, Or.inr hfed.2⟩
    · show (∀ p ∈ feedArgs (trace_fed E data size st ++ [Event.inflateEnd]),
          p.1 ≤ size ∧ p.2 = 2 * size) ∧
        ((feedArgs (trace_fed E data size st ++ [Event.inflateEnd])).head? = none ∨
          (feedArgs (trace_fed E data size st ++ [Event.inflateEnd])).head?
            = some (size, 2 * size))
      rw [feedArgs_released]
      exact ⟨hfed.1, Or.inr hfed.2⟩
  · rintro st st2 ⟨e1, e2, e3⟩ hit
    have hfed := feedArgs_fed_ok size st.avail_in (feedArgs st.trace) e1 e2 e3
    rw [← hao, ← feedArgs_trace_fed E data size st] at hfed
    rw [hao] at hfed
    rcases iteration_cases E M data size st with
      ⟨_, h⟩ | ⟨_, _, h⟩ | ⟨_, _, _, _, h⟩ | ⟨_, _, _, m, _, h⟩ | ⟨_, _, _, _, h⟩ | ⟨_, _, _, _, h⟩
    all_goals rw [h] at hit
    all_goals cases hit
    refine ⟨?_, hfed.1, Or.inr hfed.2⟩
    show st.avail_in - min (feed E data size st).consumed st.avail_in ≤ size
    omega
  · rintro st ⟨_, e2, e3⟩
    exact ⟨e2, hold _ _ e3⟩

/-- C16 (as stated, refuted): `M = 200`, `size = 10`, an engine that reads the ten input
bytes in its first feed and delivers 30 bytes.  The call returns 30 after two feeds; the first
is called with `avail_in = 10`, the second with `avail_in = 0`: `avail_in` is set once, before
the loop, and the second pass offers only what the engine has not consumed. -/
theorem narrowing_counterexample :
    (200 ≤ 4294967295 ∧ ¬ (10 > 200 ∨ (10 * 2) % SIZE_MOD > 200)) ∧
    ((Decompressor.mk 200).decompress (streamEngine (List.replicate 30 7)) false [] [] 10 4).outcome
      = .returned 30 ∧
    feedArgs
      ((Decompressor.mk 200).decompress (streamEngine (List.replicate 30 7)) false [] [] 10 4).trace
      = [(10, 20), (0, 20)] := by
  refine ⟨⟨by decide, by decide⟩, by decide, by decide⟩

/-- C16 (amended): for every ceiling `M ≤ 4294967295` and every input length that passes the
input check, for every engine, build, string and bound on the passes.  `size` and `2 * size`
fit `unsigned int` and `2 * size` does not wrap in `std::size_t`, so both casts keep their
value.  Every feed of the trace is called with an output region of exactly `2 * size` bytes
and with `avail_in ≤ size`; the first feed is called with `avail_in` exactly `size`; a pass
that repeats hands on `next_in + avail_in` unchanged, so each later feed is offered the input
bytes the engine has not consumed yet.  And in every pass that starts with
`size_uncompressed + 2 * size ≤ M` the increment `2 * size - avail_out` is the number of
bytes stored. -/
theorem narrowing_lossless {σ : Type} (E : Engine σ) (M size : Nat) (DEBUG : Bool)
    (output data : List UInt8) (fuel : Nat)
    (hM : M ≤ 4294967295)
    (hcheck : ¬ (size > M ∨ (size * 2) % SIZE_MOD > M)) :
    (size % UINT_MOD = size ∧ 2 * size ≤ UINT_MAX ∧ (2 * size) % SIZE_MOD = 2 * size ∧
      avail_out size = 2 * size) ∧
    (∀ p ∈ feedArgs ((Decompressor.mk M).decompress E DEBUG output data size fuel).trace,
      p.1 ≤ size ∧ p.2 = 2 * size) ∧
    ((feedArgs ((Decompressor.mk M).decompress E DEBUG output data size fuel).trace).head?
        = none ∨
      (feedArgs ((Decompressor.mk M).decompress E DEBUG output data size fuel).trace).head?
        = some (size, 2 * size)) ∧
    (∀ st st2 : LoopState σ, iteration E M data size st = .again st2 →
      st2.next_in + st2.avail_in = st.next_in + st.avail_in ∧ st2.avail_in ≤ st.avail_in) ∧
    (∀ st : LoopState σ, st.size_uncompressed + 2 * size ≤ M →
      produced_after E data size st
        = st.size_uncompressed + (stored E data size st).length) := by
  have hsz : size % UINT_MOD = size := by
    unfold SIZE_MOD UINT_MOD at *
    omega
  have h2u : 2 * size ≤ UINT_MAX := by
    unfold SIZE_MOD UINT_MAX at *
    omega
  have hdm : (2 * size) % SIZE_MOD = 2 * size := by
    unfold SIZE_MOD UINT_MAX at *
    omega
  have hao : avail_out size = 2 * size := by
    unfold avail_out SIZE_MOD UINT_MOD UINT_MAX at *
    omega
  have hnone : ∀ l : List Event, feedArgs l = [] →
      (∀ p ∈ feedArgs l, p.1 ≤ size ∧ p.2 = 2 * size) ∧
      ((feedArgs l).head? = none ∨ (feedArgs l).head? = some (size, 2 * size)) := by
    intro l hl
    rw [hl]
    exact ⟨fun p hp => (by cases hp), Or.inl rfl⟩
  have hrun : (∀ p ∈ feedArgs ((Decompressor.mk M).decompress E DEBUG output data size fuel).trace,
        p.1 ≤ size ∧ p.2 = 2 * size) ∧
      ((feedArgs ((Decompressor.mk M).decompress E DEBUG output data size fuel).trace).head?
          = none ∨
        (feedArgs ((Decompressor.mk M).decompress E DEBUG output data size fuel).trace).head?
          = some (size, 2 * size)) := by
    rw [decompress_eq]
    by_cases h1 : (E.inflateInit2 window_bits).1 ≠ Z_OK
    · rw [if_pos h1]
      exact hnone _ rfl
    · rw [if_neg h1]
      by_cases h2 : DEBUG = true ∧ (size * 2) % SIZE_MOD > UINT_MAX
      · rw [if_pos h2]
        exact hnone _ rfl
      · rw [if_neg h2, if_neg hcheck]
        exact inflateLoop_feed_args E M size data hao fuel
          (LoopState.mk output 0 0 (size % UINT_MOD) (E.inflateInit2 window_bits).2
            [.inflateInit2 window_bits (E.inflateInit2 window_bits).1])
          (by show size % UINT_MOD ≤ size
              rw [hsz])
          (fun p hp => by cases hp)
          (Or.inl ⟨rfl, hsz⟩)
  refine ⟨⟨hsz, h2u, hdm, hao⟩, hrun.1, hrun.2, ?_, ?_⟩
  · intro st st2 hit
    rcases iteration_cases E M data size st with
      ⟨_, h⟩ | ⟨_, _, h⟩ | ⟨_, _, _, _, h⟩ | ⟨_, _, _, m, _, h⟩ | ⟨_, _, _, _, h⟩ | ⟨_, _, _, _, h⟩
    all_goals rw [h] at hit
    all_goals cases hit
    constructor
    · show st.next_in + min (feed E data size st).consumed st.avail_in
          + (st.avail_in - min (feed E data size st).consumed st.avail_in)
        = st.next_in + st.avail_in
      omega
    · show st.avail_in - min (feed E data size st).consumed st.avail_in ≤ st.avail_in
      omega
  · intro st hcap
    have hstl := stored_length_le E data size st
    refine produced_after_exact st.size_uncompressed size _ (by rw [hdm]; exact h2u) hstl ?_
    rw [hdm]
    unfold SIZE_MOD UINT_MAX at *
    omega

theorem narrowing_lossless_witness :
    (10 % UINT_MOD = 10 ∧ 2 * 10 ≤ UINT_MAX ∧ (2 * 10) % SIZE_MOD = 2 * 10 ∧
      avail_out 10 = 2 * 10) ∧
    (∀ p ∈ feedArgs ((Decompressor.mk 200).decompress (streamEngine (List.replicate 30 7))
        false [] [] 10 4).trace, p.1 ≤ 10 ∧ p.2 = 2 * 10) ∧
    ((feedArgs ((Decompressor.mk 200).decompress (streamEngine (List.replicate 30 7))
        false [] [] 10 4).trace).head? = none ∨
      (feedArgs ((Decompressor.mk 200).decompress (streamEngine (List.replicate 30 7))
        false [] [] 10 4).trace).head? = some (10, 2 * 10)) ∧
    (∀ st st2 : LoopState (List UInt8),
      iteration (streamEngine (List.replicate 30 7)) 200 [] 10 st = .again st2 →
      st2.next_in + st2.avail_in = st.next_in + st.avail_in ∧ st2.avail_in ≤ st.avail_in) ∧
    (∀ st : LoopState (List UInt8), st.size_uncompressed + 2 * 10 ≤ 200 →
      produced_after (streamEngine (List.replicate 30 7)) [] 10 st
        = st.size_uncompressed + (stored (streamEngine (List.replicate 30 7)) [] 10 st).length) :=
  narrowing_lossless (streamEngine (List.replicate 30 7)) 200 10 false [] [] 4
    (by decide) (by decide)

end gzip
